import Mathlib

/-
Verification of the BotBooked priority-aware meeting scheduler.

The definitions below are a shallow embedding of the scheduling core found in
`app.py` and `main_meeting_algo.py` (the two files contain near-identical
copies of the core functions; where they differ the embedded version names its
source).  Timestamps are modelled as whole seconds on one fixed-offset
timeline (all calendars in the program share a single timezone offset), so
`datetime` comparison, subtraction, `.hour`, `.date()` and
`.replace(hour, minute, second, microsecond)` become plain arithmetic.
-/

namespace BotBooked

/-- `dt.hour` of a timestamp. -/
def hourOf (t : Nat) : Nat := t % 86400 / 3600

/-- `dt.date()` of a timestamp, as a day index. -/
def dateOf (t : Nat) : Nat := t / 86400

/-- `dt.replace` setting the hour to `h` and zeroing minutes, seconds and
microseconds, keeping the day. -/
def replaceHour (t : Nat) (h : Nat) : Nat := t / 86400 * 86400 + h * 3600

/-- `abs((a - b).total_seconds())` for timestamps `a b`. -/
def absDiff (a b : Nat) : Nat := max a b - min a b

/-- One calendar event: the `(start, end, priority, summary)` tuples used
throughout the scheduler. -/
structure Event where
  start : Nat
  stop : Nat
  priority : Nat
  summary : String
deriving DecidableEq

/-- Parsed calendars: the `{user_id: [(start, end, priority, summary), ...]}`
dict, as an association list with unique keys. -/
abbrev Calendars := List (String × List Event)

/-- `calendars.get(u, [])`. -/
def calGet (cals : Calendars) (u : String) : List Event :=
  (cals.lookup u).getD []

/-- Per-participant scheduling preferences. -/
structure Prefs where
  prefStart : Nat
  prefEnd : Nat
  maxMeetingsPerDay : Nat
  avoidBackToBack : Bool
  bufferMinutes : Nat
deriving DecidableEq

/-- The default preferences used for unknown participants
(`get_user_preferences`). -/
def defaultPreferences : Prefs :=
  { prefStart := 9, prefEnd := 17, maxMeetingsPerDay := 5
    avoidBackToBack := true, bufferMinutes := 15 }

/-- `get_user_preferences`: the hardcoded `PARTICIPANT_PREFERENCES` table with
fallback to `defaultPreferences`. -/
def get_user_preferences (u : String) : Prefs :=
  if u = "user1" then
    { prefStart := 9, prefEnd := 17, maxMeetingsPerDay := 6
      avoidBackToBack := true, bufferMinutes := 15 }
  else if u = "user2" then
    { prefStart := 10, prefEnd := 18, maxMeetingsPerDay := 4
      avoidBackToBack := true, bufferMinutes := 30 }
  else if u = "user3" then
    { prefStart := 8, prefEnd := 16, maxMeetingsPerDay := 8
      avoidBackToBack := false, bufferMinutes := 0 }
  else defaultPreferences

/-- The contribution of one attendee to `calculate_preference_score`:
+50 outside preferred hours, +30 when the daily meeting limit is reached,
+20 (at most once) for a back-to-back buffer violation. -/
def userScore (s e : Nat) (u : String) (events : List Event) : Nat :=
  let p := get_user_preferences u
  (if hourOf s < p.prefStart ∨ p.prefEnd < hourOf e then 50 else 0) +
  (if p.maxMeetingsPerDay ≤
      (events.filter fun ev => dateOf ev.start = dateOf s).length then 30 else 0) +
  (if p.avoidBackToBack = true ∧
      (events.any fun ev =>
        decide (absDiff ev.stop s < p.bufferMinutes * 60) ||
        decide (absDiff e ev.start < p.bufferMinutes * 60)) = true
   then 20 else 0)

/-- `calculate_preference_score(start_time, end_time, attendees, calendars)`:
sum of the per-attendee violation scores. -/
def calculate_preference_score (s e : Nat) (attendees : List String)
    (cals : Calendars) : Nat :=
  attendees.foldl (fun acc u => acc + userScore s e u (calGet cals u)) 0

/-- `calendars[u].append(ev)` - the event `ev` is added at the end of
attendee `u`'s list (the key is created when absent). -/
def addEventToCal (cals : Calendars) (u : String) (ev : Event) : Calendars :=
  match cals with
  | [] => [(u, [ev])]
  | (v, es) :: rest =>
    if v = u then (v, es ++ [ev]) :: rest else (v, es) :: addEventToCal rest u ev

lemma calGet_addEventToCal_self (cals : Calendars) (u : String) (ev : Event) :
    calGet (addEventToCal cals u ev) u = calGet cals u ++ [ev] := by
  induction cals with
  | nil => simp [calGet, addEventToCal, List.lookup]
  | cons hd tl ih =>
    obtain ⟨v, es⟩ := hd
    by_cases hv : v = u
    · subst hv
      simp [calGet, addEventToCal, List.lookup]
    · simp only [addEventToCal, if_neg hv, calGet, List.lookup]
      have hbeq : (u == v) = false := by
        simp [beq_iff_eq]; exact fun h => hv h.symm
      simp [hbeq] at ih ⊢
      exact ih

lemma calGet_addEventToCal_ne (cals : Calendars) (u w : String) (ev : Event)
    (hw : w ≠ u) : calGet (addEventToCal cals u ev) w = calGet cals w := by
  induction cals with
  | nil =>
    simp [calGet, addEventToCal, List.lookup]
    have hbeq : (w == u) = false := by simp [beq_iff_eq]; exact hw
    simp [hbeq]
  | cons hd tl ih =>
    obtain ⟨v, es⟩ := hd
    by_cases hv : v = u
    · subst hv
      have hbeq : (w == v) = false := by simp [beq_iff_eq]; exact hw
      simp [calGet, addEventToCal, List.lookup, hbeq]
    · simp only [addEventToCal, if_neg hv, calGet, List.lookup]
      by_cases hwv : w = v
      · subst hwv; simp
      · have hbeq : (w == v) = false := by simp [beq_iff_eq]; exact hwv
        simp [hbeq] at ih ⊢
        exact ih

/-- Appending one event to an attendee's list never decreases that attendee's
violation score contribution. -/
lemma userScore_append_le (s e : Nat) (u : String) (events : List Event)
    (ev : Event) : userScore s e u events ≤ userScore s e u (events ++ [ev]) := by
  unfold userScore
  refine Nat.add_le_add (Nat.add_le_add le_rfl ?_) ?_
  · by_cases h1 : (get_user_preferences u).maxMeetingsPerDay ≤
        (events.filter fun ev => dateOf ev.start = dateOf s).length
    · rw [if_pos h1, if_pos]
      refine le_trans h1 ?_
      rw [List.filter_append]
      simp [List.length_append]
    · rw [if_neg h1]
      exact Nat.zero_le _
  · by_cases h1 : (get_user_preferences u).avoidBackToBack = true ∧
        (events.any fun ev =>
          decide (absDiff ev.stop s < (get_user_preferences u).bufferMinutes * 60) ||
          decide (absDiff e ev.start < (get_user_preferences u).bufferMinutes * 60)) = true
    · rw [if_pos h1, if_pos]
      refine ⟨h1.1, ?_⟩
      rw [List.any_append]
      simp [h1.2]
    · rw [if_neg h1]
      exact Nat.zero_le _

lemma score_foldl_le (s e : Nat) (attendees : List String)
    (f g : String → List Event)
    (h : ∀ u ∈ attendees, userScore s e u (f u) ≤ userScore s e u (g u)) :
    ∀ a b : Nat, a ≤ b →
      attendees.foldl (fun acc u => acc + userScore s e u (f u)) a ≤
      attendees.foldl (fun acc u => acc + userScore s e u (g u)) b := by
  induction attendees with
  | nil => intro a b hab; simpa using hab
  | cons hd tl ih =>
    intro a b hab
    simp only [List.foldl_cons]
    refine ih (fun u hu => h u (List.mem_cons_of_mem _ hu)) _ _ ?_
    exact Nat.add_le_add hab (h hd (List.mem_cons_self _ _))

lemma calculate_preference_score_addEvent_le (s e : Nat) (atts : List String)
    (cals : Calendars) (u : String) (ev : Event) :
    calculate_preference_score s e atts cals ≤
      calculate_preference_score s e atts (addEventToCal cals u ev) := by
  unfold calculate_preference_score
  have := score_foldl_le s e atts (calGet cals) (calGet (addEventToCal cals u ev))
    (fun w _ => by
      by_cases hw : w = u
      · subst hw
        rw [calGet_addEventToCal_self]
        exact userScore_append_le s e w (calGet cals w) ev
      · rw [calGet_addEventToCal_ne cals u w ev hw]) 0 0 le_rfl
  exact this

/-- C8: for a fixed candidate slot and attendee list, adding one more event to
any attendee's calendar never decreases `calculate_preference_score`, and a
slot whose score already exceeds a bound still exceeds it afterwards. -/
theorem C8_preference_score_monotone (s e : Nat) (atts : List String)
    (cals : Calendars) (u : String) (ev : Event) :
    calculate_preference_score s e atts cals ≤
      calculate_preference_score s e atts (addEventToCal cals u ev) ∧
    ∀ maxScore : Nat, maxScore < calculate_preference_score s e atts cals →
      maxScore < calculate_preference_score s e atts (addEventToCal cals u ev) := by
  refine ⟨calculate_preference_score_addEvent_le s e atts cals u ev, ?_⟩
  intro m hm
  exact lt_of_lt_of_le hm (calculate_preference_score_addEvent_le s e atts cals u ev)

/-- Witness for C8 at a concrete slot, attendee and calendar. -/
theorem C8_preference_score_monotone_witness :
    calculate_preference_score 18000 21600 ["user1"] [("user1", [])] ≤
      calculate_preference_score 18000 21600 ["user1"]
        (addEventToCal [("user1", [])] "user1" ⟨39600, 43200, 4, "X"⟩) ∧
    (0 : Nat) < calculate_preference_score 18000 21600 ["user1"]
        (addEventToCal [("user1", [])] "user1" ⟨39600, 43200, 4, "X"⟩) := by
  constructor
  · exact (C8_preference_score_monotone 18000 21600 ["user1"] [("user1", [])]
      "user1" ⟨39600, 43200, 4, "X"⟩).1
  · refine (C8_preference_score_monotone 18000 21600 ["user1"] [("user1", [])]
      "user1" ⟨39600, 43200, 4, "X"⟩).2 0 ?_
    decide

/-
The slot search engine (`find_earliest_slot`), identical in `app.py`
(lines 911-1117) and `main_meeting_algo.py` (lines 400-555, whose extra
`recurrence_details` argument only produces log output).
-/

/-- The validation errors raised by `find_earliest_slot`. -/
inductive SchedErr
  | noAttendees
  | badDuration
  | badPriority
deriving DecidableEq

/-- `min(get_user_preferences(u)["preferred_hours"]["start"] for u in attendees)`.
The seed 24 is inert: every table or default entry is at most 10, and the
Python `min` is only evaluated on a non-empty attendee list. -/
def earliestStartHour (atts : List String) : Nat :=
  (atts.map fun u => (get_user_preferences u).prefStart).foldr min 24

/-- `max(get_user_preferences(u)["preferred_hours"]["end"] for u in attendees)`.
The seed 0 is inert: every table or default entry is at least 16. -/
def latestEndHour (atts : List String) : Nat :=
  (atts.map fun u => (get_user_preferences u).prefEnd).foldr max 0

/-- The working-hours clamp on the search origin: when the origin's hour
precedes the combined earliest start hour it is replaced by that hour with
minutes and seconds zeroed, otherwise it is untouched. -/
def adjustOrigin (atts : List String) (t : Nat) : Nat :=
  if hourOf t < earliestStartHour atts then replaceHour t (earliestStartHour atts)
  else t

/-- Collect every attendee's events into one list
(`for u in attendees: if u in calendars: all_busy_slots.extend(calendars[u])`). -/
def collectBusy (cals : Calendars) (atts : List String) : List Event :=
  atts.foldl (fun acc u =>
    match cals.lookup u with
    | some evs => acc ++ evs
    | none => acc) []

/-- Stable insertion of an event into a start-sorted list: existing events
with the same start stay in front, matching Python's stable `list.sort`. -/
def insertByStart (e : Event) : List Event → List Event
  | [] => [e]
  | x :: xs => if x.start ≤ e.start then x :: insertByStart e xs else e :: x :: xs

/-- `all_busy_slots.sort(key=lambda x: x[0])`: a stable sort by start time. -/
def sortByStart (l : List Event) : List Event :=
  l.foldl (fun acc e => insertByStart e acc) []

/-- The interval-merging loop body: while the next interval starts before the
current merged interval ends, absorb it. -/
def mergeAux (cur : Nat × Nat) : List (Nat × Nat) → List (Nat × Nat)
  | [] => [cur]
  | (s, e) :: rest =>
    if s < cur.2 then mergeAux (cur.1, max cur.2 e) rest
    else cur :: mergeAux (s, e) rest

/-- Merge the (sorted) busy intervals into consolidated busy periods. -/
def mergeIntervals : List (Nat × Nat) → List (Nat × Nat)
  | [] => []
  | x :: xs => mergeAux x xs

/-- A phase-1 candidate slot; `checkStartHour` is false exactly for the
candidate before the first busy period, whose start-hour is not validated by
the source. -/
structure Cand where
  slot : Nat × Nat
  checkStartHour : Bool
deriving DecidableEq

/-- The candidate before the first busy period: it exists when there is no
busy period at all or the meeting fits before the first one. -/
def preCands (origin : Nat) (dur : Nat) (merged : List (Nat × Nat)) :
    List Cand :=
  match merged.head? with
  | none => [⟨(origin, origin + dur), false⟩]
  | some (fb, _) =>
    if origin + dur ≤ fb then [⟨(origin, origin + dur), false⟩] else []

/-- `if search_pointer < busy_end: search_pointer = busy_end` - the pointer
advance of the gap loop. -/
def advancePtr (ptr bend : Nat) : Nat := if ptr < bend then bend else ptr

/-- The candidates of the gap loop: for each merged busy period the pointer
advances to its end, and a candidate is emitted when the meeting fits before
the next busy period (the final gap is open-ended, so it always fits). -/
def gapCands (dur : Nat) : Nat → List (Nat × Nat) → List Cand
  | _, [] => []
  | ptr, [(_, bend)] =>
    [⟨(advancePtr ptr bend, advancePtr ptr bend + dur), true⟩]
  | ptr, (_, bend) :: nb :: rest =>
    (if advancePtr ptr bend + dur ≤ nb.1 then
      [⟨(advancePtr ptr bend, advancePtr ptr bend + dur), true⟩]
     else []) ++ gapCands dur (advancePtr ptr bend) (nb :: rest)

/-- Acceptance of a phase-1 candidate: working-hours bounds (the start-hour
bound only for gap candidates, as in the source) and the preference score. -/
def candAccept (esh leh maxScore : Nat) (atts : List String) (cals : Calendars)
    (c : Cand) : Bool :=
  (!c.checkStartHour || decide (esh ≤ hourOf c.slot.1)) &&
  decide (hourOf c.slot.2 ≤ leh) &&
  decide (calculate_preference_score c.slot.1 c.slot.2 atts cals ≤ maxScore)

/-- Phase 1 (free-slot search): the first acceptable candidate wins. -/
def phase1 (origin : Nat) (dur esh leh maxScore : Nat) (atts : List String)
    (cals : Calendars) (merged : List (Nat × Nat)) : Option (Nat × Nat) :=
  ((preCands origin dur merged ++ gapCands dur origin merged).find?
    (candAccept esh leh maxScore atts cals)).map (·.slot)

/-- One phase-2 attempt at an existing busy event: the potential slot starts at
`max(event start, origin)`; it must lie in working hours, every overlapping
event must have strictly lower priority (greater number) than the new meeting,
and the preference score must be acceptable. -/
def phase2Try (origin : Nat) (dur esh leh maxScore prio : Nat)
    (atts : List String) (cals : Calendars) (allBusy : List Event) (e : Event) :
    Option ((Nat × Nat) × List Event) :=
  let ps := max e.start origin
  let pe := ps + dur
  if hourOf ps < esh ∨ leh < hourOf pe then none
  else
    let conflicts := allBusy.filter fun ev =>
      decide (ev.start < pe) && decide (ps < ev.stop)
    if (conflicts.all fun ev => decide (prio < ev.priority)) = true ∧
        calculate_preference_score ps pe atts cals ≤ maxScore then
      some ((ps, pe), conflicts)
    else none

/-- Phase 2 (displacement search) over the start-sorted busy events. -/
def phase2 (origin : Nat) (dur esh leh maxScore prio : Nat)
    (atts : List String) (cals : Calendars) (sortedBusy : List Event) :
    Option ((Nat × Nat) × List Event) :=
  sortedBusy.findSome?
    (phase2Try origin dur esh leh maxScore prio atts cals sortedBusy)

/-- `find_earliest_slot(calendars, attendees, duration_minutes,
new_meeting_priority, search_start_time, max_preference_score)`.  The
`search_start_time=None -> now()` default and the `isinstance` re-checks are
outside the embedding (all callers of interest pass a timestamp); the
`if not calendars: calendars = \x7b\x7d` line is the identity on the
association-list model. -/
def find_earliest_slot (cals : Calendars) (atts : List String)
    (duration_minutes : Nat) (prio : Nat) (search_start : Nat)
    (maxScore : Nat) : Except SchedErr (Option ((Nat × Nat) × List Event)) :=
  if atts.isEmpty then .error .noAttendees
  else if duration_minutes = 0 then .error .badDuration
  else if prio < 1 ∨ 4 < prio then .error .badPriority
  else
    let dur := duration_minutes * 60
    let esh := earliestStartHour atts
    let leh := latestEndHour atts
    let origin := adjustOrigin atts search_start
    let sortedBusy := sortByStart (collectBusy cals atts)
    let merged := mergeIntervals (sortedBusy.map fun e => (e.start, e.stop))
    match phase1 origin dur esh leh maxScore atts cals merged with
    | some slot => .ok (some (slot, []))
    | none => .ok (phase2 origin dur esh leh maxScore prio atts cals sortedBusy)

lemma prefStart_le_ten (u : String) : (get_user_preferences u).prefStart ≤ 10 := by
  unfold get_user_preferences defaultPreferences
  split_ifs <;> decide

lemma sixteen_le_prefEnd (u : String) : 16 ≤ (get_user_preferences u).prefEnd := by
  unfold get_user_preferences defaultPreferences
  split_ifs <;> decide

lemma earliestStartHour_le_ten (atts : List String) (h : atts ≠ []) :
    earliestStartHour atts ≤ 10 := by
  cases atts with
  | nil => exact absurd rfl h
  | cons hd tl =>
    unfold earliestStartHour
    simp only [List.map_cons, List.foldr_cons]
    exact le_trans (min_le_left _ _) (prefStart_le_ten hd)

lemma sixteen_le_latestEndHour (atts : List String) (h : atts ≠ []) :
    16 ≤ latestEndHour atts := by
  cases atts with
  | nil => exact absurd rfl h
  | cons hd tl =>
    unfold latestEndHour
    simp only [List.map_cons, List.foldr_cons]
    exact le_trans (sixteen_le_prefEnd hd) (le_max_left _ _)

/-- C6: the search origin is modified only when its hour precedes the combined
earliest start hour, in which case it is clamped forward to that hour with
minutes and seconds zeroed; otherwise - in particular when the origin is past
the combined latest end hour - it is left unchanged, and the clamp never moves
the origin to a different calendar day. -/
theorem C6_origin_clamped_only_forward_same_day (atts : List String) (t : Nat)
    (hne : atts ≠ []) :
    (hourOf t < earliestStartHour atts →
      adjustOrigin atts t = replaceHour t (earliestStartHour atts) ∧
      hourOf (adjustOrigin atts t) = earliestStartHour atts ∧
      adjustOrigin atts t % 3600 = 0 ∧
      t ≤ adjustOrigin atts t) ∧
    (earliestStartHour atts ≤ hourOf t → adjustOrigin atts t = t) ∧
    (latestEndHour atts < hourOf t → adjustOrigin atts t = t) ∧
    dateOf (adjustOrigin atts t) = dateOf t := by
  have hE : earliestStartHour atts ≤ 10 := earliestStartHour_le_ten atts hne
  have h16 : 16 ≤ latestEndHour atts := sixteen_le_latestEndHour atts hne
  generalize hEdef : earliestStartHour atts = E at hE ⊢
  generalize hLdef : latestEndHour atts = L at h16 ⊢
  by_cases h : hourOf t < E
  · unfold adjustOrigin
    rw [hEdef, if_pos h]
    unfold hourOf at h ⊢
    unfold replaceHour dateOf
    have hEmul : E * 3600 < 86400 := by omega
    refine ⟨fun _ => ⟨rfl, ?_, ?_, ?_⟩, fun h' => absurd h (not_lt.mpr h'), fun h' => ?_, ?_⟩
    · rw [Nat.mul_comm (t / 86400) 86400, Nat.mul_add_mod,
        Nat.mod_eq_of_lt hEmul, Nat.mul_div_cancel]
      norm_num
    · have hsplit : t / 86400 * 86400 + E * 3600 =
          (t / 86400 * 24 + E) * 3600 := by ring
      rw [hsplit, Nat.mul_mod_left]
    · omega
    · omega
    · rw [Nat.mul_comm (t / 86400) 86400, Nat.mul_add_div (by norm_num),
        Nat.div_eq_of_lt hEmul]
      exact Nat.add_zero _
  · unfold adjustOrigin
    rw [hEdef, if_neg h]
    exact ⟨fun h' => absurd h' h, fun _ => rfl, fun _ => rfl, rfl⟩

/-- Witness for C6 at a concrete attendee set and two concrete origins. -/
theorem C6_origin_clamped_only_forward_same_day_witness :
    adjustOrigin ["user1"] 18000 = 32400 ∧ adjustOrigin ["user1"] 70200 = 70200 := by
  have h1 := C6_origin_clamped_only_forward_same_day ["user1"] 18000 (by decide)
  have h2 := C6_origin_clamped_only_forward_same_day ["user1"] 70200 (by decide)
  constructor
  · have := (h1.1 (by decide)).1
    rw [this]
    decide
  · exact h2.2.2.1 (by decide)

/-- Splitting lemma for `List.find?`: a found element splits the list so that
every earlier element fails the predicate. -/
lemma find?_split {α : Type} (p : α → Bool) (l : List α) (x : α)
    (h : l.find? p = some x) :
    ∃ l1 l2, l = l1 ++ x :: l2 ∧ (∀ y ∈ l1, p y = false) ∧ p x = true := by
  induction l with
  | nil => simp [List.find?] at h
  | cons hd tl ih =>
    rw [List.find?] at h
    by_cases hp : p hd = true
    · rw [hp] at h
      simp at h
      subst h
      exact ⟨[], tl, by simp, by simp, hp⟩
    · rw [Bool.not_eq_true] at hp
      rw [hp] at h
      obtain ⟨l1, l2, heq, hall, hx⟩ := ih h
      exact ⟨hd :: l1, l2, by simp [heq], by
        intro y hy
        rcases List.mem_cons.mp hy with h1 | h1
        · subst h1; exact hp
        · exact hall y h1, hx⟩

/-- Splitting lemma for `List.findSome?`: a produced value splits the list so
that every earlier element produces nothing. -/
lemma findSome?_split {α β : Type} (f : α → Option β) (l : List α) (b : β)
    (h : l.findSome? f = some b) :
    ∃ l1 x l2, l = l1 ++ x :: l2 ∧ (∀ y ∈ l1, f y = none) ∧ f x = some b := by
  induction l with
  | nil => simp [List.findSome?] at h
  | cons hd tl ih =>
    rw [List.findSome?] at h
    cases hf : f hd with
    | some v =>
      rw [hf] at h
      simp at h
      subst h
      exact ⟨[], hd, tl, by simp, by simp, hf⟩
    | none =>
      rw [hf] at h
      obtain ⟨l1, x, l2, heq, hall, hx⟩ := ih h
      exact ⟨hd :: l1, x, l2, by simp [heq], by
        intro y hy
        rcases List.mem_cons.mp hy with h1 | h1
        · subst h1; exact hf
        · exact hall y h1, hx⟩

/-- C1: whenever the slot search returns a slot together with displaced
events, every displaced event's priority is strictly greater (numerically
lower urgency) than the new meeting's priority. -/
theorem C1_displaced_events_strictly_lower_priority
    (cals : Calendars) (atts : List String) (d p o m : Nat)
    (slot : Nat × Nat) (disp : List Event)
    (h : find_earliest_slot cals atts d p o m = .ok (some (slot, disp))) :
    ∀ e ∈ disp, p < e.priority := by
  unfold find_earliest_slot at h
  dsimp only at h
  split at h
  · exact absurd h (by simp)
  · split at h
    · exact absurd h (by simp)
    · split at h
      · exact absurd h (by simp)
      · split at h
        · simp only [Except.ok.injEq, Option.some.injEq, Prod.mk.injEq] at h
          intro e he
          rw [← h.2] at he
          cases he
        · simp only [Except.ok.injEq] at h
          unfold phase2 at h
          obtain ⟨l1, x, l2, _, _, hx⟩ := findSome?_split _ _ _ h
          unfold phase2Try at hx
          dsimp only at hx
          split at hx
          · cases hx
          · split at hx
            · next hcond =>
              simp only [Option.some.injEq, Prod.mk.injEq] at hx
              intro e he
              rw [← hx.2] at he
              have hall := hcond.1
              rw [List.all_eq_true] at hall
              simpa using hall e he
            · cases hx

/-- Witness for C1: a single all-day P4 meeting is displaced by a P1 request. -/
theorem C1_displaced_events_strictly_lower_priority_witness :
    find_earliest_slot [("user1", [⟨32400, 61200, 4, "X"⟩])] ["user1"] 60 1 32400 100 =
      .ok (some ((32400, 36000), [⟨32400, 61200, 4, "X"⟩])) ∧
    1 < (⟨32400, 61200, 4, "X"⟩ : Event).priority := by
  refine ⟨by rfl, ?_⟩
  exact C1_displaced_events_strictly_lower_priority
    [("user1", [⟨32400, 61200, 4, "X"⟩])] ["user1"] 60 1 32400 100
    (32400, 36000) [⟨32400, 61200, 4, "X"⟩] (by rfl)
    ⟨32400, 61200, 4, "X"⟩ (by simp)

lemma calGet_insert_empty (cals : Calendars) (u : String)
    (hu : cals.lookup u = none) (w : String) :
    calGet ((u, ([] : List Event)) :: cals) w = calGet cals w := by
  unfold calGet
  by_cases hw : w = u
  · subst hw
    rw [hu]
    simp [List.lookup]
  · have hbeq : (w == u) = false := by simp [beq_iff_eq]; exact hw
    simp [List.lookup, hbeq]

lemma collectBusy_insert_empty (cals : Calendars) (u : String)
    (hu : cals.lookup u = none) (atts : List String) :
    collectBusy ((u, ([] : List Event)) :: cals) atts = collectBusy cals atts := by
  unfold collectBusy
  suffices h : ∀ acc : List Event,
      atts.foldl (fun acc w =>
        match (((u, ([] : List Event)) :: cals)).lookup w with
        | some evs => acc ++ evs
        | none => acc) acc =
      atts.foldl (fun acc w =>
        match cals.lookup w with
        | some evs => acc ++ evs
        | none => acc) acc from h []
  induction atts with
  | nil => intro acc; rfl
  | cons hd tl ih =>
    intro acc
    simp only [List.foldl_cons]
    by_cases hw : hd = u
    · subst hw
      have h1 : (((hd, ([] : List Event)) :: cals)).lookup hd = some [] := by
        simp [List.lookup]
      rw [h1, hu]
      dsimp only
      rw [List.append_nil]
      exact ih acc
    · have hbeq : (hd == u) = false := by simp [beq_iff_eq]; exact hw
      have h1 : (((u, ([] : List Event)) :: cals)).lookup hd = cals.lookup hd := by
        simp [List.lookup, hbeq]
      rw [h1]
      cases cals.lookup hd <;> exact ih _

lemma score_insert_empty (cals : Calendars) (u : String)
    (hu : cals.lookup u = none) (s e : Nat) (atts : List String) :
    calculate_preference_score s e atts ((u, ([] : List Event)) :: cals) =
      calculate_preference_score s e atts cals := by
  unfold calculate_preference_score
  suffices h : ∀ acc : Nat,
      atts.foldl (fun acc w => acc + userScore s e w
        (calGet ((u, ([] : List Event)) :: cals) w)) acc =
      atts.foldl (fun acc w => acc + userScore s e w (calGet cals w)) acc from h 0
  induction atts with
  | nil => intro acc; rfl
  | cons hd tl ih =>
    intro acc
    simp only [List.foldl_cons]
    rw [calGet_insert_empty cals u hu hd]
    exact ih _

lemma candAccept_congr (esh leh ms : Nat) (atts : List String)
    (cals1 cals2 : Calendars)
    (h : ∀ s e, calculate_preference_score s e atts cals1 =
      calculate_preference_score s e atts cals2) :
    candAccept esh leh ms atts cals1 = candAccept esh leh ms atts cals2 := by
  funext c
  unfold candAccept
  rw [h]

lemma phase1_congr (o dur esh leh ms : Nat) (atts : List String)
    (cals1 cals2 : Calendars) (merged : List (Nat × Nat))
    (h : ∀ s e, calculate_preference_score s e atts cals1 =
      calculate_preference_score s e atts cals2) :
    phase1 o dur esh leh ms atts cals1 merged =
      phase1 o dur esh leh ms atts cals2 merged := by
  unfold phase1
  rw [candAccept_congr esh leh ms atts cals1 cals2 h]

lemma phase2_congr (o dur esh leh ms p : Nat) (atts : List String)
    (cals1 cals2 : Calendars) (busy : List Event)
    (h : ∀ s e, calculate_preference_score s e atts cals1 =
      calculate_preference_score s e atts cals2) :
    phase2 o dur esh leh ms p atts cals1 busy =
      phase2 o dur esh leh ms p atts cals2 busy := by
  unfold phase2
  have : phase2Try o dur esh leh ms p atts cals1 busy =
      phase2Try o dur esh leh ms p atts cals2 busy := by
    funext e
    unfold phase2Try
    dsimp only
    simp only [h]
  rw [this]

lemma find_earliest_slot_congr (cals1 cals2 : Calendars) (atts : List String)
    (d p o m : Nat)
    (hcb : collectBusy cals1 atts = collectBusy cals2 atts)
    (hsc : ∀ s e, calculate_preference_score s e atts cals1 =
      calculate_preference_score s e atts cals2) :
    find_earliest_slot cals1 atts d p o m = find_earliest_slot cals2 atts d p o m := by
  unfold find_earliest_slot
  dsimp only
  rw [hcb, phase1_congr _ _ _ _ _ _ cals1 cals2 _ hsc,
    phase2_congr _ _ _ _ _ _ _ cals1 cals2 _ hsc]

/-- C10: the slot search is total for attendees missing from the calendars
mapping - a missing key behaves exactly like a present key with no events,
unknown participants get the default preferences, and with every validation
satisfied the search returns a normal (non-error) outcome on any calendars. -/
theorem C10_missing_calendar_entries_harmless
    (cals : Calendars) (atts : List String) (d p o m : Nat) (u : String) :
    (atts ≠ [] → 0 < d → 1 ≤ p → p ≤ 4 →
      (find_earliest_slot cals atts d p o m).isOk = true) ∧
    (cals.lookup u = none →
      find_earliest_slot cals atts d p o m =
        find_earliest_slot ((u, ([] : List Event)) :: cals) atts d p o m) ∧
    (u ≠ "user1" → u ≠ "user2" → u ≠ "user3" →
      get_user_preferences u = defaultPreferences) := by
  refine ⟨?_, ?_, ?_⟩
  · intro h1 h2 h3 h4
    unfold find_earliest_slot
    dsimp only
    rw [if_neg (by simpa using h1), if_neg (by omega), if_neg (by omega)]
    split <;> rfl
  · intro hu
    exact find_earliest_slot_congr cals ((u, []) :: cals) atts d p o m
      (collectBusy_insert_empty cals u hu atts).symm
      (fun s e => (score_insert_empty cals u hu s e atts).symm)
  · intro h1 h2 h3
    unfold get_user_preferences
    rw [if_neg h1, if_neg h2, if_neg h3]

/-- Witness for C10 at a concrete attendee with no calendar key. -/
theorem C10_missing_calendar_entries_harmless_witness :
    (find_earliest_slot [("user1", [])] ["user1", "ghost"] 60 2 36000 100).isOk = true ∧
    find_earliest_slot [("user1", [])] ["user1", "ghost"] 60 2 36000 100 =
      find_earliest_slot [("ghost", []), ("user1", [])] ["user1", "ghost"] 60 2 36000 100 ∧
    get_user_preferences "ghost" = defaultPreferences := by
  have h := C10_missing_calendar_entries_harmless [("user1", [])]
    ["user1", "ghost"] 60 2 36000 100 "ghost"
  exact ⟨h.1 (by decide) (by decide) (by decide) (by decide),
    h.2.1 (by decide), h.2.2 (by decide) (by decide) (by decide)⟩

lemma mem_insertByStart (e y : Event) (l : List Event) :
    y ∈ insertByStart e l ↔ y = e ∨ y ∈ l := by
  induction l with
  | nil => simp [insertByStart]
  | cons x xs ih =>
    unfold insertByStart
    by_cases hx : x.start ≤ e.start
    · rw [if_pos hx]
      rw [List.mem_cons, ih, List.mem_cons]
      tauto
    · rw [if_neg hx]
      simp only [List.mem_cons]

lemma insertByStart_pairwise (e : Event) (l : List Event)
    (h : l.Pairwise (fun a b => a.start ≤ b.start)) :
    (insertByStart e l).Pairwise (fun a b => a.start ≤ b.start) := by
  induction l with
  | nil => simp [insertByStart]
  | cons x xs ih =>
    rw [List.pairwise_cons] at h
    unfold insertByStart
    by_cases hx : x.start ≤ e.start
    · rw [if_pos hx]
      rw [List.pairwise_cons]
      refine ⟨?_, ih h.2⟩
      intro y hy
      rcases (mem_insertByStart e y xs).mp hy with h1 | h1
      · subst h1; exact hx
      · exact h.1 y h1
    · rw [if_neg hx]
      rw [List.pairwise_cons]
      refine ⟨?_, List.pairwise_cons.mpr h⟩
      intro y hy
      rcases List.mem_cons.mp hy with h1 | h1
      · subst h1; omega
      · exact le_trans (by omega) (h.1 y h1)

lemma sortByStart_pairwise (l : List Event) :
    (sortByStart l).Pairwise (fun a b => a.start ≤ b.start) := by
  unfold sortByStart
  suffices h : ∀ acc : List Event, acc.Pairwise (fun a b => a.start ≤ b.start) →
      (l.foldl (fun acc e => insertByStart e acc) acc).Pairwise
        (fun a b => a.start ≤ b.start) from h [] (by simp)
  induction l with
  | nil => intro acc hacc; exact hacc
  | cons x xs ih =>
    intro acc hacc
    simp only [List.foldl_cons]
    exact ih _ (insertByStart_pairwise x acc hacc)

lemma advancePtr_ge (ptr bend : Nat) : ptr ≤ advancePtr ptr bend := by
  unfold advancePtr
  split <;> omega

lemma gapCands_start_ge (dur : Nat) :
    ∀ (merged : List (Nat × Nat)) (ptr : Nat),
      ∀ c ∈ gapCands dur ptr merged, ptr ≤ c.slot.1 := by
  intro merged
  induction merged with
  | nil => intro ptr c hc; simp [gapCands] at hc
  | cons b rest ih =>
    intro ptr c hc
    obtain ⟨bs, bend⟩ := b
    cases rest with
    | nil =>
      unfold gapCands at hc
      rcases List.mem_singleton.mp hc with rfl
      exact advancePtr_ge ptr bend
    | cons nb rest2 =>
      unfold gapCands at hc
      rw [List.mem_append] at hc
      rcases hc with hc | hc
      · split at hc
        · rcases List.mem_singleton.mp hc with rfl
          exact advancePtr_ge ptr bend
        · cases hc
      · exact le_trans (advancePtr_ge ptr bend) (ih _ c hc)

lemma gapCands_pairwise (dur : Nat) :
    ∀ (merged : List (Nat × Nat)) (ptr : Nat),
      (gapCands dur ptr merged).Pairwise (fun a b => a.slot.1 ≤ b.slot.1) := by
  intro merged
  induction merged with
  | nil => intro ptr; simp [gapCands]
  | cons b rest ih =>
    intro ptr
    obtain ⟨bs, bend⟩ := b
    cases rest with
    | nil => simp [gapCands]
    | cons nb rest2 =>
      unfold gapCands
      rw [List.pairwise_append]
      refine ⟨?_, ih _, ?_⟩
      · split <;> simp
      · intro a ha c hc
        split at ha
        · rcases List.mem_singleton.mp ha with rfl
          exact gapCands_start_ge dur (nb :: rest2) _ c hc
        · cases ha

lemma preCands_start (origin : Nat) (dur : Nat) (merged : List (Nat × Nat)) :
    ∀ c ∈ preCands origin dur merged, c.slot.1 = origin := by
  intro c hc
  unfold preCands at hc
  split at hc
  · rcases List.mem_singleton.mp hc with rfl; rfl
  · split at hc
    · rcases List.mem_singleton.mp hc with rfl; rfl
    · cases hc

/-- The full phase-1 candidate list has nondecreasing start times. -/
lemma phase1Cands_pairwise (origin : Nat) (dur : Nat)
    (merged : List (Nat × Nat)) :
    (preCands origin dur merged ++ gapCands dur origin merged).Pairwise
      (fun a b => a.slot.1 ≤ b.slot.1) := by
  rw [List.pairwise_append]
  refine ⟨?_, gapCands_pairwise dur merged origin, ?_⟩
  · unfold preCands
    split
    · simp
    · split <;> simp
  · intro a ha c hc
    rw [preCands_start origin dur merged a ha]
    exact gapCands_start_ge dur merged origin c hc

/-- A successful phase-2 attempt produces a slot starting at
`max(event start, origin)`. -/
lemma phase2Try_start (origin dur esh leh ms p : Nat) (atts : List String)
    (cals : Calendars) (busy : List Event) (e : Event)
    (r : (Nat × Nat) × List Event)
    (h : phase2Try origin dur esh leh ms p atts cals busy e = some r) :
    r.1.1 = max e.start origin := by
  unfold phase2Try at h
  dsimp only at h
  split at h
  · cases h
  · split at h
    · rw [← Option.some_inj.mp h]
    · cases h

/-- C2 (amended): earliest-first holds within each phase - the returned slot
starts no later than any qualifying candidate of the phase it came from, and
phase 2 is consulted only when phase 1 accepts nothing - but a qualifying
phase-1 free slot is returned even when an earlier phase-2 displacement
candidate qualifies (see the counterexample). -/
theorem C2_earliest_first_within_phase
    (cals : Calendars) (atts : List String) (d p o m : Nat)
    (slot : Nat × Nat) (disp : List Event) (c : Cand) (e : Event)
    (r : (Nat × Nat) × List Event)
    (h : find_earliest_slot cals atts d p o m = .ok (some (slot, disp))) :
    (c ∈ preCands (adjustOrigin atts o) (d * 60)
          (mergeIntervals ((sortByStart (collectBusy cals atts)).map
            fun ev => (ev.start, ev.stop))) ++
        gapCands (d * 60) (adjustOrigin atts o)
          (mergeIntervals ((sortByStart (collectBusy cals atts)).map
            fun ev => (ev.start, ev.stop))) →
      candAccept (earliestStartHour atts) (latestEndHour atts) m atts cals c = true →
      slot.1 ≤ c.slot.1) ∧
    (phase1 (adjustOrigin atts o) (d * 60) (earliestStartHour atts)
        (latestEndHour atts) m atts cals
        (mergeIntervals ((sortByStart (collectBusy cals atts)).map
          fun ev => (ev.start, ev.stop))) = none →
      e ∈ sortByStart (collectBusy cals atts) →
      phase2Try (adjustOrigin atts o) (d * 60) (earliestStartHour atts)
        (latestEndHour atts) m p atts cals
        (sortByStart (collectBusy cals atts)) e = some r →
      slot.1 ≤ r.1.1) := by
  unfold find_earliest_slot at h
  dsimp only at h
  split at h
  · exact absurd h (by simp)
  · split at h
    · exact absurd h (by simp)
    · split at h
      · exact absurd h (by simp)
      · split at h
        · next s hp =>
          simp only [Except.ok.injEq, Option.some.injEq, Prod.mk.injEq] at h
          obtain ⟨hslot, hdisp⟩ := h
          subst hslot
          constructor
          · -- the returned slot is the first accepted phase-1 candidate
            intro hc hacc
            unfold phase1 at hp
            cases hfind : (preCands (adjustOrigin atts o) (d * 60)
                (mergeIntervals ((sortByStart (collectBusy cals atts)).map
                  fun ev => (ev.start, ev.stop))) ++
              gapCands (d * 60) (adjustOrigin atts o)
                (mergeIntervals ((sortByStart (collectBusy cals atts)).map
                  fun ev => (ev.start, ev.stop)))).find?
                (candAccept (earliestStartHour atts) (latestEndHour atts) m atts cals) with
            | none => rw [hfind] at hp; cases hp
            | some x =>
              rw [hfind] at hp
              simp only [Option.map_some'] at hp
              obtain ⟨l1, l2, heq, hfail, _⟩ := find?_split _ _ _ hfind
              have hpw := phase1Cands_pairwise (adjustOrigin atts o) (d * 60)
                (mergeIntervals ((sortByStart (collectBusy cals atts)).map
                  fun ev => (ev.start, ev.stop)))
              rw [heq] at hpw hc
              rw [List.pairwise_append] at hpw
              rcases List.mem_append.mp hc with h1 | h1
              · exact absurd hacc (by simp [hfail c h1])
              · rcases List.mem_cons.mp h1 with h1 | h1
                · subst h1
                  rw [← Option.some_inj.mp hp]
                · rw [← Option.some_inj.mp hp]
                  exact (List.pairwise_cons.mp hpw.2.1).1 c h1
          · -- but phase 1 returned, so its result is not none
            intro hnone
            rw [hnone] at hp
            cases hp
        · next hp =>
          simp only [Except.ok.injEq] at h
          constructor
          · -- no phase-1 candidate is accepted at all
            intro hc hacc
            unfold phase1 at hp
            rw [Option.map_eq_none'] at hp
            rw [List.find?_eq_none] at hp
            exact absurd hacc (by simp [hp c hc])
          · intro _ he htry
            unfold phase2 at h
            obtain ⟨l1, x, l2, heq, hfail, hx⟩ := findSome?_split _ _ _ h
            have hpw := sortByStart_pairwise (collectBusy cals atts)
            rw [heq] at hpw he
            rw [List.pairwise_append] at hpw
            have hslot1 : slot.1 = max x.start (adjustOrigin atts o) := by
              have := phase2Try_start _ _ _ _ _ _ _ _ _ _ _ hx
              simpa using this
            have hr1 : r.1.1 = max e.start (adjustOrigin atts o) :=
              phase2Try_start _ _ _ _ _ _ _ _ _ _ _ htry
            rcases List.mem_append.mp he with h1 | h1
            · rw [hfail e h1] at htry
              cases htry
            · rcases List.mem_cons.mp h1 with h1 | h1
              · subst h1
                rw [hslot1, hr1]
              · have hle : x.start ≤ e.start :=
                  (List.pairwise_cons.mp hpw.2.1).1 e h1
                rw [hslot1, hr1]
                exact max_le_max hle le_rfl

/-- Witness for the amended C2, exercising both conjuncts at concrete inputs:
a free-slot search on an empty calendar and a displacement search on a fully
busy day. -/
theorem C2_earliest_first_within_phase_witness :
    (41400 : Nat) ≤ (⟨(41400, 45000), false⟩ : Cand).slot.1 ∧
    (32400 : Nat) ≤ ((32400, 36000), [(⟨32400, 61200, 4, "X"⟩ : Event)]).1.1 := by
  constructor
  · exact (C2_earliest_first_within_phase [] ["user1"] 60 3 41400 100
        (41400, 45000) [] ⟨(41400, 45000), false⟩ ⟨0, 0, 0, ""⟩ ((0, 0), [])
        (by rfl)).1 (by decide) (by rfl)
  · exact (C2_earliest_first_within_phase [("user1", [⟨32400, 61200, 4, "X"⟩])]
        ["user1"] 60 1 32400 100 (32400, 36000) [⟨32400, 61200, 4, "X"⟩]
        ⟨(0, 0), false⟩ ⟨32400, 61200, 4, "X"⟩
        ((32400, 36000), [⟨32400, 61200, 4, "X"⟩]) (by rfl)).2
      (by rfl) (by decide) (by rfl)

/-- Counterexample to C2 as stated: with a single P4 event 09:00-10:00 and a
P1 request for 60 minutes from 09:00, the displacement-phase candidate
starting 09:00 qualifies (it fits, is in hours, scores 0 and overlaps only the
strictly-lower-priority event), yet the engine returns the later free slot
10:00-11:00 found by the free-slot phase. -/
theorem C2_earliest_first_counterexample :
    find_earliest_slot [("user1", [⟨32400, 36000, 4, "E"⟩])] ["user1"]
        60 1 32400 100 = .ok (some ((36000, 39600), [])) ∧
    phase2Try (adjustOrigin ["user1"] 32400) (60 * 60)
        (earliestStartHour ["user1"]) (latestEndHour ["user1"]) 100 1 ["user1"]
        [("user1", [⟨32400, 36000, 4, "E"⟩])]
        (sortByStart (collectBusy [("user1", [⟨32400, 36000, 4, "E"⟩])] ["user1"]))
        ⟨32400, 36000, 4, "E"⟩ =
      some ((32400, 36000), [⟨32400, 36000, 4, "E"⟩]) ∧
    (32400 : Nat) < 36000 := by
  refine ⟨by rfl, by rfl, by decide⟩

lemma userScore_le_100 (s e : Nat) (u : String) (evs : List Event) :
    userScore s e u evs ≤ 100 := by
  unfold userScore
  dsimp only
  split_ifs <;> omega

lemma single_attendee_score (s e : Nat) (u : String) (cals : Calendars) :
    calculate_preference_score s e [u] cals = userScore s e u (calGet cals u) := by
  unfold calculate_preference_score
  simp

/-- Counterexample to C3 as stated: a single-attendee calendar with two P4
events 09:00-13:00 and 13:00-17:00 covering the working day; the P1 120-minute
request from 09:00 gets the 09:00-11:00 slot but only the first P4 event is
listed as displaced - the second is absent from the displacement set. -/
theorem C3_two_p4_events_counterexample :
    find_earliest_slot
        [("user1", [⟨32400, 46800, 4, "A"⟩, ⟨46800, 61200, 4, "B"⟩])]
        ["user1"] 120 1 32400 100 =
      .ok (some ((32400, 39600), [⟨32400, 46800, 4, "A"⟩])) ∧
    (⟨46800, 61200, 4, "B"⟩ : Event) ∉ [(⟨32400, 46800, 4, "A"⟩ : Event)] := by
  refine ⟨by rfl, by decide⟩

/-- C3 (amended): for a single attendee whose two P4 events partition
09:00-17:00 at any split point, the P1 120-minute request from 09:00 returns
the slot starting 09:00, and the displacement set is exactly the events
overlapping the returned two-hour window - both events only when the split
falls inside it. -/
theorem C3_amended_overlapping_events_displaced (M : Nat) (n1 n2 : String)
    (h1 : 32400 < M) (h2 : M < 61200) :
    find_earliest_slot [("user1", [⟨32400, M, 4, n1⟩, ⟨M, 61200, 4, n2⟩])]
        ["user1"] 120 1 32400 100 =
      .ok (some ((32400, 39600),
        if M < 39600 then [⟨32400, M, 4, n1⟩, ⟨M, 61200, 4, n2⟩]
        else [⟨32400, M, 4, n1⟩])) := by
  have hcb : collectBusy [("user1", [⟨32400, M, 4, n1⟩, ⟨M, 61200, 4, n2⟩])]
      ["user1"] = [⟨32400, M, 4, n1⟩, ⟨M, 61200, 4, n2⟩] := rfl
  have hsort : sortByStart [⟨32400, M, 4, n1⟩, ⟨M, 61200, 4, n2⟩] =
      [⟨32400, M, 4, n1⟩, ⟨M, 61200, 4, n2⟩] := by
    unfold sortByStart
    simp only [List.foldl_cons, List.foldl_nil, insertByStart]
    simp [le_of_lt h1]
  have hmap : ([⟨32400, M, 4, n1⟩, ⟨M, 61200, 4, n2⟩] : List Event).map
      (fun e => (e.start, e.stop)) = [(32400, M), (M, 61200)] := rfl
  have hmerge : mergeIntervals [(32400, M), (M, 61200)] =
      [(32400, M), (M, 61200)] := by
    simp only [mergeIntervals, mergeAux]
    simp [lt_irrefl]
  have hadv1 : advancePtr 32400 M = M := by
    unfold advancePtr
    rw [if_pos h1]
  have hadv2 : advancePtr M 61200 = 61200 := by
    unfold advancePtr
    rw [if_pos h2]
  have hgap : gapCands (120 * 60) 32400 [(32400, M), (M, 61200)] =
      [⟨(61200, 61200 + 120 * 60), true⟩] := by
    simp only [gapCands, hadv1, hadv2]
    have hnof : ¬(M + 120 * 60 ≤ M) := by omega
    simp [hnof]
  have hphase1 : phase1 32400 (120 * 60) 9 17 100 ["user1"]
      [("user1", [⟨32400, M, 4, n1⟩, ⟨M, 61200, 4, n2⟩])]
      [(32400, M), (M, 61200)] = none := by
    unfold phase1
    have hpre : preCands 32400 (120 * 60) [(32400, M), (M, 61200)] = [] := rfl
    rw [hpre, hgap]
    have hacc : candAccept 9 17 100 ["user1"]
        [("user1", [⟨32400, M, 4, n1⟩, ⟨M, 61200, 4, n2⟩])]
        ⟨(61200, 61200 + 120 * 60), true⟩ = false := by
      unfold candAccept
      norm_num [hourOf]
    simp [List.find?, hacc]
  have htry : phase2Try 32400 (120 * 60) 9 17 100 1 ["user1"]
      [("user1", [⟨32400, M, 4, n1⟩, ⟨M, 61200, 4, n2⟩])]
      [⟨32400, M, 4, n1⟩, ⟨M, 61200, 4, n2⟩] ⟨32400, M, 4, n1⟩ =
      some ((32400, 39600),
        if M < 39600 then [⟨32400, M, 4, n1⟩, ⟨M, 61200, 4, n2⟩]
        else [⟨32400, M, 4, n1⟩]) := by
    unfold phase2Try
    dsimp only
    rw [if_neg (by norm_num [hourOf])]
    have hscore : calculate_preference_score (max 32400 32400)
        (max 32400 32400 + 120 * 60) ["user1"]
        [("user1", [⟨32400, M, 4, n1⟩, ⟨M, 61200, 4, n2⟩])] ≤ 100 := by
      rw [single_attendee_score]
      exact userScore_le_100 _ _ _ _
    rcases lt_or_ge M 39600 with hM | hM
    · have hfil : ([⟨32400, M, 4, n1⟩, ⟨M, 61200, 4, n2⟩] : List Event).filter
          (fun ev => decide (ev.start < max 32400 32400 + 120 * 60) &&
            decide (max 32400 32400 < ev.stop)) =
          [⟨32400, M, 4, n1⟩, ⟨M, 61200, 4, n2⟩] := by
        simp only [List.filter]
        simp [h1, hM]
      rw [hfil]
      rw [if_pos ⟨by simp, hscore⟩]
      simp [hM]
    · have hfil : ([⟨32400, M, 4, n1⟩, ⟨M, 61200, 4, n2⟩] : List Event).filter
          (fun ev => decide (ev.start < max 32400 32400 + 120 * 60) &&
            decide (max 32400 32400 < ev.stop)) =
          [⟨32400, M, 4, n1⟩] := by
        have hnm : ¬ (M < 39600) := by omega
        simp only [List.filter]
        simp [h1, hnm]
      rw [hfil]
      rw [if_pos ⟨by simp, hscore⟩]
      rw [if_neg (by omega : ¬ M < 39600)]
      simp
  have hphase2 : phase2 32400 (120 * 60) 9 17 100 1 ["user1"]
      [("user1", [⟨32400, M, 4, n1⟩, ⟨M, 61200, 4, n2⟩])]
      [⟨32400, M, 4, n1⟩, ⟨M, 61200, 4, n2⟩] =
      some ((32400, 39600),
        if M < 39600 then [⟨32400, M, 4, n1⟩, ⟨M, 61200, 4, n2⟩]
        else [⟨32400, M, 4, n1⟩]) := by
    unfold phase2
    rw [List.findSome?]
    rw [htry]
  unfold find_earliest_slot
  dsimp only
  rw [if_neg (by decide), if_neg (by decide), if_neg (by decide)]
  rw [show adjustOrigin ["user1"] 32400 = 32400 from rfl]
  rw [show earliestStartHour ["user1"] = 9 from rfl]
  rw [show latestEndHour ["user1"] = 17 from rfl]
  rw [hcb, hsort, hmap, hmerge, hphase1, hphase2]

/-- Witness for the amended C3 at the split point 13:00. -/
theorem C3_amended_overlapping_events_displaced_witness :
    find_earliest_slot [("user1", [⟨32400, 46800, 4, "P4A"⟩, ⟨46800, 61200, 4, "P4B"⟩])]
        ["user1"] 120 1 32400 100 =
      .ok (some ((32400, 39600), [⟨32400, 46800, 4, "P4A"⟩])) := by
  have h := C3_amended_overlapping_events_displaced 46800 "P4A" "P4B"
    (by decide) (by decide)
  rw [if_neg (by decide)] at h
  exact h

/-
The calendar normalizer (`parse_calendar_data`), identical in `app.py`
(lines 791-905) and `main_meeting_algo.py` (lines 321-398).
-/

/-- A raw timestamp field: absent from the record, present but rejected by
`datetime.fromisoformat` (which raises, caught by the per-record handler), or
successfully parsed. -/
inductive RawTime
  | missing
  | malformed
  | val (t : Nat)
deriving DecidableEq

/-- A raw `Priority` field value: an integer, or a non-integer value (which
fails the `isinstance(priority, int)` check). An absent field is modelled by
`Option`. -/
inductive RawPriority
  | intVal (n : Int)
  | nonInt
deriving DecidableEq

/-- One raw event record as consumed by `parse_calendar_data`. -/
structure RawEvent where
  startTime : RawTime
  endTime : RawTime
  attendees : Option (List String)
  summary : Option String
  priority : Option RawPriority
deriving DecidableEq

/-- Whether `needle` is an initial segment of `hay`. -/
def leadMatch : List Char → List Char → Bool
  | [], _ => true
  | _ :: _, [] => false
  | a :: as, b :: bs => (a == b) && leadMatch as bs

/-- Whether `needle` occurs inside `hay` (Python's `keyword in summary`). -/
def hasSub (needle : List Char) : List Char → Bool
  | [] => leadMatch needle []
  | c :: rest => leadMatch needle (c :: rest) || hasSub needle rest

/-- Substring test on strings. -/
def strHasSub (needle hay : String) : Bool := hasSub needle.toList hay.toList

/-- The keyword-based default priority: `Client Call` maps to 2,
`Design Review` to 3, everything else to 4 (the `priority_map` lookup with
default 4, in dict insertion order). -/
def keywordPriority (summary : String) : Nat :=
  if strHasSub "Client Call" summary then 2
  else if strHasSub "Design Review" summary then 3
  else 4

/-- Process one raw record: skip it when a required field is missing, a
timestamp does not parse, the attendee list is absent or empty, the times are
out of order, or an explicit priority is not an integer in `[1,4]`; otherwise
fan the event out to every non-empty attendee's calendar. -/
def processEvent (cals : Calendars) (ev : RawEvent) : Calendars :=
  match ev.startTime, ev.endTime with
  | RawTime.val st, RawTime.val et =>
    match ev.attendees with
    | none => cals
    | some atts =>
      if atts.isEmpty then cals
      else if et ≤ st then cals
      else
        let summary := ev.summary.getD "No Title"
        match ev.priority with
        | some RawPriority.nonInt => cals
        | some (RawPriority.intVal n) =>
          if n < 1 ∨ 4 < n then cals
          else atts.foldl (fun acc a =>
            if a = "" then acc
            else addEventToCal acc a ⟨st, et, n.toNat, summary⟩) cals
        | none =>
          atts.foldl (fun acc a =>
            if a = "" then acc
            else addEventToCal acc a ⟨st, et, keywordPriority summary, summary⟩)
            cals
  | _, _ => cals

/-- `parse_calendar_data(raw_events)`: fold the per-record processing over the
batch, starting from the empty calendar dict. -/
def parse_calendar_data (raw : List RawEvent) : Calendars :=
  raw.foldl processEvent []

/-- The conditions under which `parse_calendar_data` skips a whole record. -/
def recordSkipped (ev : RawEvent) : Bool :=
  match ev.startTime, ev.endTime with
  | RawTime.val st, RawTime.val et =>
    match ev.attendees with
    | none => true
    | some atts =>
      atts.isEmpty || decide (et ≤ st) ||
        (match ev.priority with
         | some RawPriority.nonInt => true
         | some (RawPriority.intVal n) => decide (n < 1 ∨ 4 < n)
         | none => false)
  | _, _ => true

lemma keywordPriority_mem (s : String) :
    1 ≤ keywordPriority s ∧ keywordPriority s ≤ 4 := by
  unfold keywordPriority
  split_ifs <;> omega

/-- `addEventToCal` preserves a per-event property when the new event has it. -/
lemma addEventToCal_forall (P : Event → Prop) (cals : Calendars) (u : String)
    (ev : Event) (hc : ∀ q ∈ cals, ∀ e ∈ q.2, P e) (hev : P ev) :
    ∀ q ∈ addEventToCal cals u ev, ∀ e ∈ q.2, P e := by
  induction cals with
  | nil =>
    intro q hq e he
    rcases List.mem_singleton.mp hq with rfl
    rcases List.mem_singleton.mp he with rfl
    exact hev
  | cons hd tl ih =>
    obtain ⟨v, es⟩ := hd
    intro q hq e he
    unfold addEventToCal at hq
    split at hq
    · rcases List.mem_cons.mp hq with h1 | h1
      · subst h1
        rcases List.mem_append.mp he with h2 | h2
        · exact hc (v, es) (List.mem_cons_self _ _) e h2
        · rcases List.mem_singleton.mp h2 with rfl
          exact hev
      · exact hc q (List.mem_cons_of_mem _ h1) e he
    · rcases List.mem_cons.mp hq with h1 | h1
      · subst h1
        exact hc (v, es) (List.mem_cons_self _ _) e he
      · exact ih (fun q hq => hc q (List.mem_cons_of_mem _ hq)) q h1 e he

lemma attendee_foldl_forall (P : Event → Prop) (atts : List String)
    (mk : Event) (hmk : P mk) :
    ∀ cals : Calendars, (∀ q ∈ cals, ∀ e ∈ q.2, P e) →
      ∀ q ∈ atts.foldl (fun acc a =>
        if a = "" then acc else addEventToCal acc a mk) cals,
        ∀ e ∈ q.2, P e := by
  induction atts with
  | nil => intro cals hc; exact hc
  | cons hd tl ih =>
    intro cals hc
    simp only [List.foldl_cons]
    by_cases hhd : hd = ""
    · rw [if_pos hhd]
      exact ih cals hc
    · rw [if_neg hhd]
      exact ih _ (addEventToCal_forall P cals hd mk hc hmk)

/-- Every event a processed record adds satisfies the normalizer invariant. -/
lemma processEvent_forall (cals : Calendars) (ev : RawEvent)
    (hc : ∀ q ∈ cals, ∀ e ∈ q.2,
      e.start < e.stop ∧ 1 ≤ e.priority ∧ e.priority ≤ 4) :
    ∀ q ∈ processEvent cals ev, ∀ e ∈ q.2,
      e.start < e.stop ∧ 1 ≤ e.priority ∧ e.priority ≤ 4 := by
  obtain ⟨st, et, atts?, summ, prio⟩ := ev
  cases st with
  | missing => exact hc
  | malformed => exact hc
  | val s =>
    cases et with
    | missing => exact hc
    | malformed => exact hc
    | val t =>
      cases atts? with
      | none => exact hc
      | some atts =>
        unfold processEvent
        dsimp only
        by_cases hemp : atts.isEmpty = true
        · rw [if_pos hemp]; exact hc
        · rw [if_neg hemp]
          by_cases hord : t ≤ s
          · rw [if_pos hord]; exact hc
          · rw [if_neg hord]
            cases prio with
            | none =>
              dsimp only
              refine attendee_foldl_forall _ atts _ ?_ cals hc
              have := keywordPriority_mem (summ.getD "No Title")
              exact ⟨show s < t by omega,
                show 1 ≤ keywordPriority (summ.getD "No Title") by omega,
                show keywordPriority (summ.getD "No Title") ≤ 4 by omega⟩
            | some rp =>
              cases rp with
              | nonInt => exact hc
              | intVal n =>
                dsimp only
                by_cases hn : n < 1 ∨ 4 < n
                · rw [if_pos hn]; exact hc
                · rw [if_neg hn]
                  refine attendee_foldl_forall _ atts _ ?_ cals hc
                  exact ⟨show s < t by omega, show 1 ≤ n.toNat by omega,
                    show n.toNat ≤ 4 by omega⟩

lemma lookup_mem {α β : Type} [BEq α] (l : List (α × β)) (a : α) (b : β)
    (h : l.lookup a = some b) : ∃ k, (k, b) ∈ l := by
  induction l with
  | nil => cases h
  | cons hd tl ih =>
    obtain ⟨k, v⟩ := hd
    rw [List.lookup] at h
    by_cases hk : (a == k) = true
    · rw [hk] at h
      simp at h
      subst h
      exact ⟨k, List.mem_cons_self _ _⟩
    · rw [Bool.not_eq_true] at hk
      rw [hk] at h
      obtain ⟨k', hk'⟩ := ih h
      exact ⟨k', List.mem_cons_of_mem _ hk'⟩

lemma parse_calendar_data_forall (raw : List RawEvent) :
    ∀ q ∈ parse_calendar_data raw, ∀ e ∈ q.2,
      e.start < e.stop ∧ 1 ≤ e.priority ∧ e.priority ≤ 4 := by
  unfold parse_calendar_data
  suffices h : ∀ cals : Calendars,
      (∀ q ∈ cals, ∀ e ∈ q.2,
        e.start < e.stop ∧ 1 ≤ e.priority ∧ e.priority ≤ 4) →
      ∀ q ∈ raw.foldl processEvent cals, ∀ e ∈ q.2,
        e.start < e.stop ∧ 1 ≤ e.priority ∧ e.priority ≤ 4 from
    h [] (by simp)
  induction raw with
  | nil => intro cals hc; exact hc
  | cons hd tl ih =>
    intro cals hc
    simp only [List.foldl_cons]
    exact ih _ (processEvent_forall cals hd hc)

/-- A record meeting any skip condition leaves the calendars untouched. -/
lemma processEvent_skipped (cals : Calendars) (ev : RawEvent)
    (h : recordSkipped ev = true) : processEvent cals ev = cals := by
  obtain ⟨st, et, atts?, summ, prio⟩ := ev
  cases st with
  | missing => rfl
  | malformed => rfl
  | val s =>
    cases et with
    | missing => rfl
    | malformed => rfl
    | val t =>
      cases atts? with
      | none => rfl
      | some atts =>
        unfold recordSkipped at h
        unfold processEvent
        dsimp only at h ⊢
        by_cases hemp : atts.isEmpty = true
        · rw [if_pos hemp]
        · rw [if_neg hemp]
          by_cases hord : t ≤ s
          · rw [if_pos hord]
          · rw [if_neg hord]
            cases prio with
            | none => simp [hemp, hord] at h
            | some rp =>
              cases rp with
              | nonInt => rfl
              | intVal n =>
                dsimp only at h ⊢
                simp only [Bool.or_eq_true, decide_eq_true_eq] at h
                rcases h with (h | h) | h
                · exact absurd h hemp
                · exact absurd h hord
                · rw [if_pos h]

/-- C7: the batch normalizer is total, every tuple it outputs satisfies
`start < end` and `priority in [1,4]`, and a malformed record anywhere in the
batch is skipped while the rest is processed exactly as if it were absent. -/
theorem C7_normalizer_skips_malformed_records
    (raw xs ys : List RawEvent) (bad : RawEvent) (u : String)
    (evs : List Event) :
    ((parse_calendar_data raw).lookup u = some evs →
      ∀ e ∈ evs, e.start < e.stop ∧ 1 ≤ e.priority ∧ e.priority ≤ 4) ∧
    (recordSkipped bad = true →
      parse_calendar_data (xs ++ bad :: ys) = parse_calendar_data (xs ++ ys)) := by
  constructor
  · intro h e he
    obtain ⟨k, hk⟩ := lookup_mem _ _ _ h
    exact parse_calendar_data_forall raw (k, evs) hk e he
  · intro hbad
    unfold parse_calendar_data
    rw [List.foldl_append, List.foldl_append, List.foldl_cons,
      processEvent_skipped _ bad hbad]

/-- Witness for C7 in the scenario-5 shape: a record missing its `EndTime`
between two well-formed records is dropped, and both outputs satisfy the
invariant. -/
theorem C7_normalizer_skips_malformed_records_witness :
    (∀ e ∈ [(⟨36000, 39600, 4, "Standup"⟩ : Event), ⟨43200, 46800, 2, "Client Call"⟩],
      e.start < e.stop ∧ 1 ≤ e.priority ∧ e.priority ≤ 4) ∧
    parse_calendar_data
        [⟨RawTime.val 36000, RawTime.val 39600, some ["user1"], some "Standup", none⟩,
         ⟨RawTime.val 50000, RawTime.missing, some ["user1"], some "Broken", none⟩,
         ⟨RawTime.val 43200, RawTime.val 46800, some ["user1"], some "Client Call", none⟩] =
      parse_calendar_data
        [⟨RawTime.val 36000, RawTime.val 39600, some ["user1"], some "Standup", none⟩,
         ⟨RawTime.val 43200, RawTime.val 46800, some ["user1"], some "Client Call", none⟩] := by
  constructor
  · intro e he
    refine (C7_normalizer_skips_malformed_records
      [⟨RawTime.val 36000, RawTime.val 39600, some ["user1"], some "Standup", none⟩,
       ⟨RawTime.val 50000, RawTime.missing, some ["user1"], some "Broken", none⟩,
       ⟨RawTime.val 43200, RawTime.val 46800, some ["user1"], some "Client Call", none⟩]
      [] [] ⟨RawTime.missing, RawTime.missing, none, none, none⟩ "user1"
      [⟨36000, 39600, 4, "Standup"⟩, ⟨43200, 46800, 2, "Client Call"⟩]).1
      (by rfl) e he
  · exact (C7_normalizer_skips_malformed_records []
      [⟨RawTime.val 36000, RawTime.val 39600, some ["user1"], some "Standup", none⟩]
      [⟨RawTime.val 43200, RawTime.val 46800, some ["user1"], some "Client Call", none⟩]
      ⟨RawTime.val 50000, RawTime.missing, some ["user1"], some "Broken", none⟩
      "user1" []).2 (by rfl)

/-
The displacement resolver: `reschedule_meetings_recursively` (app.py lines
559-667) and the calendar-carrying `requirewna` (app.py lines 669-785).
The embedding carries, besides the value results, a log of the
`find_earliest_slot` invocations (origin, max preference score, and whether
the call was made for a top-level meeting of the invocation or inside a
cascading recursion); this instrumentation only records what the source
passes to `find_earliest_slot` and changes no behaviour.  Recursion is fueled:
the source recursion has no depth bound, and every theorem below holds for
every fuel value.
-/

/-- The fields of `format_meeting_as_json` output that the resolver claims
depend on (subject, times, duration, and the rescheduling metadata). -/
structure JsonMeeting where
  subject : String
  start : Nat
  stop : Nat
  durationMins : Nat
  rescheduled : Bool
  originalStart : Option Nat
  needsManualIntervention : Bool
deriving DecidableEq

/-- `format_meeting_as_json` restricted to the modelled fields. -/
def format_meeting_as_json (subject : String) (s e : Nat) (resched : Bool)
    (originalStart : Option Nat) (needsManual : Bool) : JsonMeeting :=
  ⟨subject, s, e, (e - s) / 60, resched, originalStart, needsManual⟩

/-- One recorded invocation of the slot search during rescheduling. -/
structure SearchCall where
  origin : Nat
  maxScore : Nat
  topLevel : Bool
deriving DecidableEq

/-- Errors of the fueled resolver. -/
inductive ReschedErr
  | search (e : SchedErr)
  | outOfFuel
deriving DecidableEq

/-- `if attendee in updated_calendars: updated_calendars[attendee].append(ev)`:
append only for attendees that already have a calendar key. -/
def appendIfMember (cals : Calendars) (u : String) (ev : Event) : Calendars :=
  if (cals.lookup u).isSome then addEventToCal cals u ev else cals

/-- `reschedule_meetings_recursively(meetings, updated_calendars,
attendees_map, search_start_time)`: for each displaced meeting, re-search with
the invocation's floor and `max_preference_score=150`; on success append the
relocated meeting to its attendees' working calendars and recurse on any
further conflicts with the relocated meeting's end as the new floor; on
failure emit a needs-manual-intervention record.  The returned triple is
(result list, final working calendars, search-call log). -/
def reschedule_meetings_recursively :
    Nat → List Event → Calendars → List (String × List String) → Nat →
    Except ReschedErr (List JsonMeeting × Calendars × List SearchCall)
  | 0, _, _, _, _ => .error .outOfFuel
  | _ + 1, [], cals, _, _ => .ok ([], cals, [])
  | fuel + 1, m :: rest, cals, amap, floor =>
    let dur := (m.stop - m.start) / 60
    let meetingAtts := (amap.lookup m.summary).getD (cals.map (·.1))
    match find_earliest_slot cals meetingAtts dur m.priority floor 150 with
    | .error e => .error (.search e)
    | .ok none =>
      match reschedule_meetings_recursively fuel rest cals amap floor with
      | .error e => .error e
      | .ok (outs, cals', log) =>
        .ok (format_meeting_as_json
              ("[NEEDS MANUAL RESCHEDULING] " ++ m.summary)
              m.start m.stop false none true :: outs,
            cals', ⟨floor, 150, true⟩ :: log)
    | .ok (some ((ns, ne), further)) =>
      let cals1 := meetingAtts.foldl
        (fun acc a => appendIfMember acc a ⟨ns, ne, m.priority, m.summary⟩) cals
      let relocated := format_meeting_as_json m.summary ns ne true
        (some m.start) false
      if further.isEmpty then
        match reschedule_meetings_recursively fuel rest cals1 amap floor with
        | .error e => .error e
        | .ok (outs, cals', log) =>
          .ok (relocated :: outs, cals', ⟨floor, 150, true⟩ :: log)
      else
        match reschedule_meetings_recursively fuel further cals1 amap ne with
        | .error e => .error e
        | .ok (fouts, cals2, flog) =>
          match reschedule_meetings_recursively fuel rest cals2 amap floor with
          | .error e => .error e
          | .ok (outs, cals', log) =>
            .ok (relocated :: (fouts ++ outs), cals',
              ⟨floor, 150, true⟩ ::
                (flog.map (fun c => ⟨c.origin, c.maxScore, false⟩) ++ log))

/-- The new-meeting information handed to `requirewna`. -/
structure NewMeetingInfo where
  subject : String
  startTime : Option Nat
  endTime : Option Nat
  priority : Nat
deriving DecidableEq

/-- `requirewna(meetings_to_reschedule, new_meeting_info, calendars,
attendees_map)` on the calendars-provided path: build the working copy with
the conflicting meetings removed, insert the new meeting into every user's
working list when its times are present, default the attendee map to all
calendar users, and delegate to the recursive resolver with the new meeting's
end as the search floor.  (When `end_time` is absent the source falls back to
the wall clock, which is outside the embedding; the fallback value 0 below is
never exercised by a claim.) -/
def requirewna (fuel : Nat) (meetings : List Event) (info : NewMeetingInfo)
    (cals : Calendars) (amap? : Option (List (String × List String))) :
    Except ReschedErr (List JsonMeeting × Calendars × List SearchCall) :=
  let updated0 : Calendars := cals.map (fun p => (p.1, p.2.filter (fun ev =>
    !(meetings.any (fun c => decide (c.start = ev.start) &&
      decide (c.stop = ev.stop) && decide (c.summary = ev.summary))))))
  let updated1 : Calendars :=
    match info.startTime, info.endTime with
    | some ns, some ne =>
      updated0.map (fun p =>
        (p.1, p.2 ++ [⟨ns, ne, info.priority, info.subject⟩]))
    | _, _ => updated0
  let amap := match amap? with
    | some a => a
    | none => meetings.map (fun c => (c.summary, cals.map (·.1)))
  let searchStart := (info.endTime).getD 0
  reschedule_meetings_recursively fuel meetings updated1 amap searchStart

lemma reschedule_log_spec (fuel : Nat) :
    ∀ (ms : List Event) (cals : Calendars)
      (amap : List (String × List String)) (floor : Nat)
      (res : List JsonMeeting × Calendars × List SearchCall),
      reschedule_meetings_recursively fuel ms cals amap floor = .ok res →
      ∀ c ∈ res.2.2, c.maxScore = 150 ∧ (c.topLevel = true → c.origin = floor) := by
  induction fuel with
  | zero => intro ms cals amap floor res h c hc; cases h
  | succ fuel ih =>
    intro ms cals amap floor res h c hc
    cases ms with
    | nil =>
      rw [reschedule_meetings_recursively] at h
      simp only [Except.ok.injEq] at h
      rw [← h] at hc
      cases hc
    | cons m rest =>
      rw [reschedule_meetings_recursively] at h
      dsimp only at h
      split at h
      · cases h
      · -- search failed: manual-intervention record, same floor for the rest
        split at h
        · cases h
        · next outs cals' log heq =>
          simp only [Except.ok.injEq] at h
          rw [← h] at hc
          dsimp only at hc
          rcases List.mem_cons.mp hc with hc | hc
          · subst hc; exact ⟨rfl, fun _ => rfl⟩
          · exact ih rest _ amap floor _ heq c hc
      · -- search succeeded
        split at h
        · -- no further conflicts
          split at h
          · cases h
          · next outs cals' log heq =>
            simp only [Except.ok.injEq] at h
            rw [← h] at hc
            dsimp only at hc
            rcases List.mem_cons.mp hc with hc | hc
            · subst hc; exact ⟨rfl, fun _ => rfl⟩
            · exact ih rest _ amap floor _ heq c hc
        · -- cascading recursion with the relocated meeting's end as floor
          split at h
          · cases h
          · next fouts cals2 flog heqf =>
            split at h
            · cases h
            · next outs cals' log heq =>
              simp only [Except.ok.injEq] at h
              rw [← h] at hc
              dsimp only at hc
              rcases List.mem_cons.mp hc with hc | hc
              · subst hc; exact ⟨rfl, fun _ => rfl⟩
              · rcases List.mem_append.mp hc with hc | hc
                · rcases List.mem_map.mp hc with ⟨c', hc', hcc⟩
                  have := ih _ _ amap _ _ heqf c' hc'
                  rw [← hcc]
                  exact ⟨this.1, fun hfalse => by cases hfalse⟩
                · exact ih rest _ amap floor _ heq c hc

/-- C5 (amended): every displaced meeting is re-searched with
`maxPreferenceScore = 150`; all top-level meetings of one resolver invocation
use that invocation's floor unchanged (the floor is not advanced between
meetings of the same list), cascading conflicts are re-resolved with the
just-relocated meeting's end as their floor, and `requirewna` starts the
resolution with the new meeting's end time as the initial floor. -/
theorem C5_resolver_floor_and_relaxation
    (fuel : Nat) (ms : List Event) (cals : Calendars)
    (amap : List (String × List String)) (amap? : Option (List (String × List String)))
    (floor : Nat) (info : NewMeetingInfo) (ne : Nat)
    (res res' : List JsonMeeting × Calendars × List SearchCall) :
    (reschedule_meetings_recursively fuel ms cals amap floor = .ok res →
      ∀ c ∈ res.2.2, c.maxScore = 150 ∧ (c.topLevel = true → c.origin = floor)) ∧
    (info.endTime = some ne → requirewna fuel ms info cals amap? = .ok res' →
      ∀ c ∈ res'.2.2, c.maxScore = 150 ∧ (c.topLevel = true → c.origin = ne)) := by
  constructor
  · intro h c hc
    exact reschedule_log_spec fuel ms cals amap floor res h c hc
  · intro hne h c hc
    unfold requirewna at h
    rw [hne] at h
    exact reschedule_log_spec fuel ms _ _ _ res' h c hc

/-- Witness for C5 at concrete inputs, exercising both the resolver and the
`requirewna` entry point. -/
theorem C5_resolver_floor_and_relaxation_witness :
    ((⟨43200, 150, true⟩ : SearchCall).maxScore = 150 ∧
      ((⟨43200, 150, true⟩ : SearchCall).topLevel = true →
        (⟨43200, 150, true⟩ : SearchCall).origin = 43200)) ∧
    ((⟨45000, 150, true⟩ : SearchCall).maxScore = 150 ∧
      ((⟨45000, 150, true⟩ : SearchCall).topLevel = true →
        (⟨45000, 150, true⟩ : SearchCall).origin = 45000)) := by
  constructor
  · exact (C5_resolver_floor_and_relaxation 2 [⟨32400, 34200, 4, "M1"⟩]
      [("user1", [])] [("M1", ["user1"])] none 43200 ⟨"New", none, none, 1⟩ 0
      ([⟨"M1", 43200, 45000, 30, true, some 32400, false⟩],
        [("user1", [⟨43200, 45000, 4, "M1"⟩])], [⟨43200, 150, true⟩])
      ([], [], [])).1 (by rfl) ⟨43200, 150, true⟩ (by simp)
  · exact (C5_resolver_floor_and_relaxation 2 [⟨32400, 34200, 4, "M1"⟩]
      [("user1", [⟨32400, 34200, 4, "M1"⟩])] [] none 43200
      ⟨"New", some 43200, some 45000, 1⟩ 45000 ([], [], [])
      ([⟨"M1", 45000, 46800, 30, true, some 32400, false⟩],
        [("user1", [⟨43200, 45000, 1, "New"⟩, ⟨45000, 46800, 4, "M1"⟩])],
        [⟨45000, 150, true⟩])).2 (by rfl) (by rfl)
      ⟨45000, 150, true⟩ (by simp)

/-- Counterexample to C5 as stated: two displaced meetings with disjoint
attendee sets and floor 12:00.  The first relocates to 12:00-12:30, but the
second is still searched from the original floor 12:00 - not from the first
relocated meeting's end 12:30 - and lands at 12:00, overlapping the first
relocated meeting's span. -/
theorem C5_floor_not_advanced_counterexample :
    reschedule_meetings_recursively 3
        [⟨32400, 34200, 4, "M1"⟩, ⟨34200, 36000, 4, "M2"⟩]
        [("user1", []), ("user2", [])]
        [("M1", ["user1"]), ("M2", ["user2"])] 43200 =
      .ok ([⟨"M1", 43200, 45000, 30, true, some 32400, false⟩,
            ⟨"M2", 43200, 45000, 30, true, some 34200, false⟩],
           [("user1", [⟨43200, 45000, 4, "M1"⟩]),
            ("user2", [⟨43200, 45000, 4, "M2"⟩])],
           [⟨43200, 150, true⟩, ⟨43200, 150, true⟩]) ∧
    (43200 : Nat) ≠ 45000 := by
  refine ⟨by rfl, by decide⟩

/-
Mutation model for the frame claims.  Python lists are heap objects mutated in
place, so non-mutation is stated over an explicit store: addresses index event
lists, a calendars dict is a map from user to address, and each Python
operation is modelled by what it does to the store.  `find_earliest_slot`
builds and sorts its own local list (one fresh allocation) and only reads the
calendar lists; `requirewna` copies every list (`events.copy()`), rebinds each
entry to a freshly built filtered list, and all later appends - the new
meeting and every relocation - go to those fresh addresses.
-/

/-- The store: event lists addressed by index. -/
abbrev Store := List (List Event)

/-- Read the list at an address (absent addresses read as empty). -/
def storeRead (σ : Store) (a : Nat) : List Event := σ.getD a []

/-- Overwrite the list at an address (in-place mutation of one Python list). -/
def storeWrite (σ : Store) (a : Nat) (v : List Event) : Store := σ.set a v

/-- Allocate a fresh list, returning its address. -/
def storeAlloc (σ : Store) (v : List Event) : Nat × Store := (σ.length, σ ++ [v])

/-- A calendars dict by reference: user to address of their event list. -/
abbrev CalsRef := List (String × Nat)

/-- Materialise the calendars a reference map denotes. -/
def derefCals (σ : Store) (r : CalsRef) : Calendars :=
  r.map (fun p => (p.1, storeRead σ p.2))

/-- `find_earliest_slot` over the store: it reads the referenced calendars,
allocates its local `all_busy_slots` list, sorts it in place, and computes the
result; no calendar list is written. -/
def find_earliest_slotS (σ : Store) (r : CalsRef) (atts : List String)
    (d p o m : Nat) :
    Except SchedErr (Option ((Nat × Nat) × List Event)) × Store :=
  let cals := derefCals σ r
  let (busyAddr, σ1) := storeAlloc σ (collectBusy cals atts)
  let σ2 := storeWrite σ1 busyAddr (sortByStart (collectBusy cals atts))
  (find_earliest_slot cals atts d p o m, σ2)

/-- Append to an attendee's referenced list only when the key exists. -/
def appendIfMemberS (σ : Store) (r : CalsRef) (u : String) (ev : Event) :
    Store :=
  match r.lookup u with
  | some a => storeWrite σ a (storeRead σ a ++ [ev])
  | none => σ

/-- The recursive resolver over the store: the same control flow as
`reschedule_meetings_recursively`, with every calendar access going through
the reference map. -/
def rescheduleS :
    Nat → List Event → Store → CalsRef → List (String × List String) → Nat →
    Except ReschedErr (List JsonMeeting × Store)
  | 0, _, _, _, _, _ => .error .outOfFuel
  | _ + 1, [], σ, _, _, _ => .ok ([], σ)
  | fuel + 1, m :: rest, σ, ref, amap, floor =>
    let dur := (m.stop - m.start) / 60
    let meetingAtts := (amap.lookup m.summary).getD (ref.map (·.1))
    match find_earliest_slotS σ ref meetingAtts dur m.priority floor 150 with
    | (.error e, _) => .error (.search e)
    | (.ok none, σ1) =>
      match rescheduleS fuel rest σ1 ref amap floor with
      | .error e => .error e
      | .ok (outs, σ') =>
        .ok (format_meeting_as_json
              ("[NEEDS MANUAL RESCHEDULING] " ++ m.summary)
              m.start m.stop false none true :: outs, σ')
    | (.ok (some ((ns, ne), further)), σ1) =>
      let σ2 := meetingAtts.foldl
        (fun s a => appendIfMemberS s ref a ⟨ns, ne, m.priority, m.summary⟩) σ1
      let relocated := format_meeting_as_json m.summary ns ne true
        (some m.start) false
      if further.isEmpty then
        match rescheduleS fuel rest σ2 ref amap floor with
        | .error e => .error e
        | .ok (outs, σ') => .ok (relocated :: outs, σ')
      else
        match rescheduleS fuel further σ2 ref amap ne with
        | .error e => .error e
        | .ok (fouts, σ3) =>
          match rescheduleS fuel rest σ3 ref amap floor with
          | .error e => .error e
          | .ok (outs, σ') => .ok (relocated :: (fouts ++ outs), σ')

/-- The working-copy construction of `requirewna`: for each user, copy their
list (`events.copy()`), then rebind the entry to a freshly built list holding
the events that match no displaced meeting. -/
def copyFilterCals (σ : Store) (r : CalsRef) (meetings : List Event) :
    CalsRef × Store :=
  r.foldl (fun acc p =>
    let copied := storeAlloc acc.2 (storeRead acc.2 p.2)
    let filtered := storeAlloc copied.2
      ((storeRead copied.2 copied.1).filter (fun ev =>
        !(meetings.any (fun c => decide (c.start = ev.start) &&
          decide (c.stop = ev.stop) && decide (c.summary = ev.summary)))))
    (acc.1 ++ [(p.1, filtered.1)], filtered.2)) ([], σ)

/-- Append the new meeting to every user's working list. -/
def insertNewS (σ : Store) (r : CalsRef) (ev : Event) : Store :=
  r.foldl (fun s p => storeWrite s p.2 (storeRead s p.2 ++ [ev])) σ

/-- `requirewna` over the store, on the calendars-provided path: build the
working copy, insert the new meeting when its times are present, default the
attendee map, and resolve from the new meeting's end. -/
def requirewnaS (fuel : Nat) (meetings : List Event) (info : NewMeetingInfo)
    (σ : Store) (r : CalsRef)
    (amap? : Option (List (String × List String))) :
    Except ReschedErr (List JsonMeeting × Store) :=
  let copied := copyFilterCals σ r meetings
  let σ2 := match info.startTime, info.endTime with
    | some ns, some ne =>
      insertNewS copied.2 copied.1 ⟨ns, ne, info.priority, info.subject⟩
    | _, _ => copied.2
  let amap := match amap? with
    | some a => a
    | none => meetings.map (fun c => (c.summary, r.map (·.1)))
  rescheduleS fuel meetings σ2 copied.1 amap ((info.endTime).getD 0)

lemma storeRead_append_lt (σ : Store) (v : List Event) (a : Nat)
    (h : a < σ.length) : storeRead (σ ++ [v]) a = storeRead σ a := by
  induction σ generalizing a with
  | nil => cases h
  | cons hd tl ih =>
    cases a with
    | zero => rfl
    | succ a => exact ih a (by simpa using h)

lemma storeRead_write_ne (σ : Store) (b : Nat) (v : List Event) (a : Nat)
    (h : a ≠ b) : storeRead (storeWrite σ b v) a = storeRead σ a := by
  induction σ generalizing a b with
  | nil => rfl
  | cons hd tl ih =>
    cases b with
    | zero =>
      cases a with
      | zero => exact absurd rfl h
      | succ a => rfl
    | succ b =>
      cases a with
      | zero => rfl
      | succ a => exact ih b a (by omega)

lemma storeWrite_length (σ : Store) (b : Nat) (v : List Event) :
    (storeWrite σ b v).length = σ.length := by
  unfold storeWrite
  exact List.length_set σ b v

lemma find_earliest_slotS_store (σ : Store) (r : CalsRef) (atts : List String)
    (d p o m : Nat) :
    (∀ a < σ.length,
      storeRead (find_earliest_slotS σ r atts d p o m).2 a = storeRead σ a) ∧
    σ.length ≤ (find_earliest_slotS σ r atts d p o m).2.length := by
  unfold find_earliest_slotS storeAlloc
  dsimp only
  constructor
  · intro a ha
    rw [storeRead_write_ne _ _ _ _ (by omega), storeRead_append_lt _ _ _ ha]
  · rw [storeWrite_length]
    simp

lemma appendIfMemberS_read (σ : Store) (ref : CalsRef) (u : String) (ev : Event)
    (n : Nat) (href : ∀ p ∈ ref, n ≤ p.2) (a : Nat) (ha : a < n) :
    storeRead (appendIfMemberS σ ref u ev) a = storeRead σ a := by
  unfold appendIfMemberS
  cases hl : ref.lookup u with
  | none => rfl
  | some b =>
    obtain ⟨k, hk⟩ := lookup_mem ref u b hl
    exact storeRead_write_ne σ b _ a (by have := href (k, b) hk; omega)

lemma appendIfMemberS_length (σ : Store) (ref : CalsRef) (u : String)
    (ev : Event) : (appendIfMemberS σ ref u ev).length = σ.length := by
  unfold appendIfMemberS
  cases ref.lookup u with
  | none => rfl
  | some b => exact storeWrite_length σ b _

lemma append_foldl_store (ref : CalsRef) (mk : Event) (n : Nat)
    (href : ∀ p ∈ ref, n ≤ p.2) :
    ∀ (atts : List String) (σ : Store),
      (∀ a < n, storeRead (atts.foldl
        (fun s a => appendIfMemberS s ref a mk) σ) a = storeRead σ a) ∧
      (atts.foldl (fun s a => appendIfMemberS s ref a mk) σ).length =
        σ.length := by
  intro atts
  induction atts with
  | nil => intro σ; exact ⟨fun a _ => rfl, rfl⟩
  | cons hd tl ih =>
    intro σ
    simp only [List.foldl_cons]
    constructor
    · intro a ha
      rw [(ih _).1 a ha, appendIfMemberS_read σ ref hd mk n href a ha]
    · rw [(ih _).2, appendIfMemberS_length]

/-- All writes of the store-level resolver go to the referenced working
calendars, so every address below `n` - in particular every address of the
caller's original lists - is untouched. -/
lemma rescheduleS_frame (fuel : Nat) :
    ∀ (ms : List Event) (σ : Store) (ref : CalsRef)
      (amap : List (String × List String)) (floor n : Nat)
      (res : List JsonMeeting × Store),
      (∀ p ∈ ref, n ≤ p.2) → n ≤ σ.length →
      rescheduleS fuel ms σ ref amap floor = .ok res →
      (∀ a < n, storeRead res.2 a = storeRead σ a) ∧ n ≤ res.2.length := by
  induction fuel with
  | zero => intro ms σ ref amap floor n res _ _ h; cases h
  | succ fuel ih =>
    intro ms σ ref amap floor n res href hlen h
    cases ms with
    | nil =>
      rw [rescheduleS] at h
      simp only [Except.ok.injEq] at h
      rw [← h]
      exact ⟨fun a _ => rfl, hlen⟩
    | cons m rest =>
      rw [rescheduleS] at h
      dsimp only at h
      have hS := find_earliest_slotS_store σ ref
        (((amap.lookup m.summary).getD (ref.map (·.1))))
        ((m.stop - m.start) / 60) m.priority floor 150
      split at h
      · cases h
      · next σ1 heqS =>
        -- search returned none
        have hσ1r : ∀ a < n, storeRead σ1 a = storeRead σ a := by
          intro a ha
          have := hS.1 a (by omega)
          rw [heqS] at this
          exact this
        have hσ1l : n ≤ σ1.length := by
          have := hS.2
          rw [heqS] at this
          dsimp only at this
          omega
        split at h
        · cases h
        · next outs σ' heq =>
          simp only [Except.ok.injEq] at h
          rw [← h]
          obtain ⟨h1, h2⟩ := ih rest σ1 ref amap floor n (outs, σ') href hσ1l heq
          exact ⟨fun a ha => by rw [h1 a ha, hσ1r a ha], h2⟩
      · next ns ne further σ1 heqS =>
        have hσ1r : ∀ a < n, storeRead σ1 a = storeRead σ a := by
          intro a ha
          have := hS.1 a (by omega)
          rw [heqS] at this
          exact this
        have hσ1l : n ≤ σ1.length := by
          have := hS.2
          rw [heqS] at this
          dsimp only at this
          omega
        have hfold := append_foldl_store ref ⟨ns, ne, m.priority, m.summary⟩ n
          href ((amap.lookup m.summary).getD (ref.map (·.1))) σ1
        split at h
        · split at h
          · cases h
          · next outs σ' heq =>
            simp only [Except.ok.injEq] at h
            rw [← h]
            obtain ⟨h1, h2⟩ := ih rest _ ref amap floor n (outs, σ')
              href (by rw [hfold.2]; exact hσ1l) heq
            exact ⟨fun a ha => by rw [h1 a ha, hfold.1 a ha, hσ1r a ha], h2⟩
        · split at h
          · cases h
          · next fouts σ3 heqf =>
            split at h
            · cases h
            · next outs σ' heq =>
              simp only [Except.ok.injEq] at h
              rw [← h]
              obtain ⟨hf1, hf2⟩ := ih further _ ref amap ne n (fouts, σ3)
                href (by rw [hfold.2]; exact hσ1l) heqf
              obtain ⟨h1, h2⟩ := ih rest σ3 ref amap floor n (outs, σ')
                href hf2 heq
              exact ⟨fun a ha => by
                rw [h1 a ha, hf1 a ha, hfold.1 a ha, hσ1r a ha], h2⟩

lemma copyFilterCals_store (meetings : List Event) :
    ∀ (r : CalsRef) (acc : CalsRef) (σ0 σ : Store) (n : Nat),
      n ≤ σ.length → (∀ p ∈ acc, n ≤ p.2) →
      (∀ a < n, storeRead σ a = storeRead σ0 a) →
      (∀ a < n, storeRead (r.foldl (fun acc p =>
          let copied := storeAlloc acc.2 (storeRead acc.2 p.2)
          let filtered := storeAlloc copied.2
            ((storeRead copied.2 copied.1).filter (fun ev =>
              !(meetings.any (fun c => decide (c.start = ev.start) &&
                decide (c.stop = ev.stop) && decide (c.summary = ev.summary)))))
          (acc.1 ++ [(p.1, filtered.1)], filtered.2)) (acc, σ)).2 a =
        storeRead σ0 a) ∧
      n ≤ (r.foldl (fun acc p =>
          let copied := storeAlloc acc.2 (storeRead acc.2 p.2)
          let filtered := storeAlloc copied.2
            ((storeRead copied.2 copied.1).filter (fun ev =>
              !(meetings.any (fun c => decide (c.start = ev.start) &&
                decide (c.stop = ev.stop) && decide (c.summary = ev.summary)))))
          (acc.1 ++ [(p.1, filtered.1)], filtered.2)) (acc, σ)).2.length ∧
      (∀ p ∈ (r.foldl (fun acc p =>
          let copied := storeAlloc acc.2 (storeRead acc.2 p.2)
          let filtered := storeAlloc copied.2
            ((storeRead copied.2 copied.1).filter (fun ev =>
              !(meetings.any (fun c => decide (c.start = ev.start) &&
                decide (c.stop = ev.stop) && decide (c.summary = ev.summary)))))
          (acc.1 ++ [(p.1, filtered.1)], filtered.2)) (acc, σ)).1, n ≤ p.2) := by
  intro r
  induction r with
  | nil =>
    intro acc σ0 σ n hlen hacc hread
    exact ⟨fun a ha => hread a ha, hlen, hacc⟩
  | cons hd tl ih =>
    intro acc σ0 σ n hlen hacc hread
    simp only [List.foldl_cons]
    refine ih _ σ0 _ n ?_ ?_ ?_
    · simp only [storeAlloc]
      simp only [List.length_append, List.length_singleton]
      omega
    · intro p hp
      rcases List.mem_append.mp hp with hp | hp
      · exact hacc p hp
      · rcases List.mem_singleton.mp hp with rfl
        simp only [storeAlloc]
        simp only [List.length_append, List.length_singleton]
        omega
    · intro a ha
      simp only [storeAlloc]
      rw [storeRead_append_lt, storeRead_append_lt]
      · exact hread a ha
      · omega
      · simp only [List.length_append, List.length_singleton]
        omega

lemma insertNewS_store (ev : Event) (n : Nat) :
    ∀ (r : CalsRef) (σ : Store), (∀ p ∈ r, n ≤ p.2) →
      (∀ a < n, storeRead (insertNewS σ r ev) a = storeRead σ a) ∧
      (insertNewS σ r ev).length = σ.length := by
  intro r
  induction r with
  | nil => intro σ _; exact ⟨fun a _ => rfl, rfl⟩
  | cons hd tl ih =>
    intro σ hr
    unfold insertNewS
    simp only [List.foldl_cons]
    have hstep_read : ∀ a < n,
        storeRead (storeWrite σ hd.2 (storeRead σ hd.2 ++ [ev])) a =
          storeRead σ a := by
      intro a ha
      refine storeRead_write_ne σ hd.2 _ a ?_
      have := hr hd (List.mem_cons_self _ _)
      omega
    have htl := ih (storeWrite σ hd.2 (storeRead σ hd.2 ++ [ev]))
      (fun p hp => hr p (List.mem_cons_of_mem _ hp))
    unfold insertNewS at htl
    constructor
    · intro a ha
      rw [htl.1 a ha, hstep_read a ha]
    · rw [htl.2, storeWrite_length]

/-- C9: the slot search never writes to any referenced calendar list, and the
displacement resolver's removals and insertions happen only on the freshly
allocated working copy, so every original list is identical before and after
the call. -/
theorem C9_search_and_resolver_preserve_original_calendars
    (σ : Store) (r : CalsRef) (atts : List String) (d p o m : Nat)
    (fuel : Nat) (meetings : List Event) (info : NewMeetingInfo)
    (amap? : Option (List (String × List String)))
    (res : List JsonMeeting × Store) (a : Nat) :
    (a < σ.length →
      storeRead (find_earliest_slotS σ r atts d p o m).2 a = storeRead σ a) ∧
    (a < σ.length → requirewnaS fuel meetings info σ r amap? = .ok res →
      storeRead res.2 a = storeRead σ a) := by
  constructor
  · intro ha
    exact (find_earliest_slotS_store σ r atts d p o m).1 a ha
  · intro ha h
    unfold requirewnaS at h
    dsimp only at h
    have hcopy := copyFilterCals_store meetings r [] σ σ σ.length le_rfl
      (by simp) (fun a _ => rfl)
    set folded := r.foldl (fun acc p =>
      let copied := storeAlloc acc.2 (storeRead acc.2 p.2)
      let filtered := storeAlloc copied.2
        ((storeRead copied.2 copied.1).filter (fun ev =>
          !(meetings.any (fun c => decide (c.start = ev.start) &&
            decide (c.stop = ev.stop) && decide (c.summary = ev.summary)))))
      (acc.1 ++ [(p.1, filtered.1)], filtered.2)) (([] : CalsRef), σ) with hfolded
    obtain ⟨hcr, hcl, hca⟩ := hcopy
    have hcopyfold : copyFilterCals σ r meetings = folded := by
      rw [hfolded]
      rfl
    rw [hcopyfold] at h
    split at h
    · next ns ne hs he =>
      have hins := insertNewS_store ⟨ns, ne, info.priority, info.subject⟩
        σ.length folded.1 folded.2 hca
      obtain ⟨h1, h2⟩ := rescheduleS_frame fuel meetings _ folded.1 _ _
        σ.length res hca (by rw [hins.2]; exact hcl) h
      rw [h1 a ha, hins.1 a ha, hcr a ha]
    · obtain ⟨h1, h2⟩ := rescheduleS_frame fuel meetings _ folded.1 _ _
        σ.length res hca hcl h
      rw [h1 a ha, hcr a ha]

/-- Witness for C9: one original calendar list at address 0 is bitwise
unchanged both by a search and by a full rescheduling pass that relocates the
displaced meeting on the working copy. -/
theorem C9_search_and_resolver_preserve_original_calendars_witness :
    storeRead (find_earliest_slotS [[⟨32400, 34200, 4, "M1"⟩]] [("user1", 0)]
      ["user1"] 60 1 36000 100).2 0 = storeRead [[⟨32400, 34200, 4, "M1"⟩]] 0 ∧
    storeRead ([[⟨32400, 34200, 4, "M1"⟩], [⟨32400, 34200, 4, "M1"⟩],
          [⟨43200, 45000, 1, "New"⟩, ⟨45000, 46800, 4, "M1"⟩],
          [⟨43200, 45000, 1, "New"⟩]] : Store) 0 =
      storeRead [[⟨32400, 34200, 4, "M1"⟩]] 0 := by
  constructor
  · exact (C9_search_and_resolver_preserve_original_calendars
      [[⟨32400, 34200, 4, "M1"⟩]] [("user1", 0)] ["user1"] 60 1 36000 100
      2 [⟨32400, 34200, 4, "M1"⟩] ⟨"New", some 43200, some 45000, 1⟩ none
      ([], []) 0).1 (by decide)
  · exact (C9_search_and_resolver_preserve_original_calendars
      [[⟨32400, 34200, 4, "M1"⟩]] [("user1", 0)] ["user1"] 60 1 36000 100
      2 [⟨32400, 34200, 4, "M1"⟩] ⟨"New", some 43200, some 45000, 1⟩ none
      ([⟨"M1", 45000, 46800, 30, true, some 32400, false⟩],
        [[⟨32400, 34200, 4, "M1"⟩], [⟨32400, 34200, 4, "M1"⟩],
          [⟨43200, 45000, 1, "New"⟩, ⟨45000, 46800, 4, "M1"⟩],
          [⟨43200, 45000, 1, "New"⟩]]) 0).2 (by decide) (by rfl)

/-
The booking orchestrator: `schedule_meeting_from_request` in
`main_meeting_algo.py` (lines 558-715, the variant that parses the duration
string; `app.py` differs only in defaulting the duration and in the richer
rescheduling call).  `recurrence_details` is fixed to its default `None`,
under which it only produces log output.  A raised `ValueError` anywhere in
the search is caught by the surrounding handler and becomes a `None` return.
-/

/-- `re.match(r'\d+', s)` followed by `int(...)`: the leading digits of the
string, if any. -/
def parseLeadingNat (s : String) : Option Nat :=
  let ds := s.toList.takeWhile Char.isDigit
  if ds.isEmpty then none
  else some (ds.foldl (fun acc c => acc * 10 + (c.toNat - 48)) 0)

/-- A scheduling request: `Subject`, `Duration of meeting` (a string),
`start time ` (missing/empty, unparsable by `strptime`, or a timestamp), and
the optional `Priority` (defaulted to 1 when absent). -/
structure MeetingRequest where
  subject : Option String
  duration : Option String
  startTime : RawTime
  priority : Option RawPriority
deriving DecidableEq

/-- One entry of the notification-only `requirewna` of
`main_meeting_algo.py`: the displaced meeting flagged
`needs_rescheduling`. -/
structure ReschedEntry where
  originalStart : Nat
  originalStop : Nat
  priority : Nat
  summary : String
deriving DecidableEq

/-- `requirewna(meetings_to_reschedule, new_meeting_info)` of
`main_meeting_algo.py`: every displaced meeting is reported as needing
rescheduling. -/
def requirewna_notify (meetings : List Event) : List ReschedEntry :=
  meetings.map (fun m => ⟨m.start, m.stop, m.priority, m.summary⟩)

/-- The orchestrator's terminal outcome, covering both the success dict and
the all-fallbacks-failed dict. -/
structure BookingOutcome where
  success : Bool
  slot : Option (Nat × Nat)
  reschedulingRequired : Bool
  reschedulingResult : Option (List ReschedEntry)
  fallbackUsed : Option String
  error : Option String
  fallbacksAttempted : List String
deriving DecidableEq

/-- `_handle_successful_booking` of `main_meeting_algo.py` with no
recurrence: package the slot, and when meetings must move, attach the
notification-only rescheduling result. -/
def handle_successful_booking (result : (Nat × Nat) × List Event)
    (fallbackUsed : Option String) : BookingOutcome :=
  let (slot, toResched) := result
  if toResched.isEmpty then
    ⟨true, some slot, false, none, fallbackUsed, none, []⟩
  else
    ⟨true, some slot, true, some (requirewna_notify toResched), fallbackUsed,
      none, []⟩

/-- Fallback 3's loop over the shifted search origins, stopping at the first
success; a raised validation error aborts the whole attempt. -/
def tryShifts (parsed : Calendars) (atts : List String) (d p : Nat) :
    List Nat → Except Unit (Option ((Nat × Nat) × List Event))
  | [] => .ok none
  | o :: rest =>
    match find_earliest_slot parsed atts d p o 100 with
    | .error _ => .error ()
    | .ok (some r) => .ok (some r)
    | .ok none => tryShifts parsed atts d p rest

/-- `schedule_meeting_from_request(user_calendars, meeting_request)`:
validation (each failure returns `None`), normalization, the primary search,
then the four fallbacks in order, then the structured failure outcome.  The
last two shifted origins use truncated subtraction, matching the fact that
the timeline has no instants before its origin. -/
def schedule_meeting_from_request
    (user_calendars : List (String × List RawEvent))
    (req? : Option MeetingRequest) : Option BookingOutcome :=
  if user_calendars.isEmpty then none
  else match req? with
  | none => none
  | some req =>
    match req.duration with
    | none => none
    | some dstr =>
      if dstr = "" then none
      else match parseLeadingNat dstr with
      | none => none
      | some d =>
        if d = 0 then none
        else match req.startTime with
        | RawTime.missing => none
        | RawTime.malformed => none
        | RawTime.val t =>
          match (req.priority).getD (RawPriority.intVal 1) with
          | RawPriority.nonInt => none
          | RawPriority.intVal pz =>
            if pz < 1 ∨ 4 < pz then none
            else
              let p := pz.toNat
              let atts := user_calendars.map (·.1)
              if atts.isEmpty then none
              else
                let allRaw := user_calendars.foldl (fun acc q => acc ++ q.2) []
                let parsed0 := parse_calendar_data allRaw
                let parsed := if parsed0.isEmpty then
                  atts.map (fun a => (a, ([] : List Event))) else parsed0
                match find_earliest_slot parsed atts d p t 100 with
                | .error _ => none
                | .ok (some r) => some (handle_successful_booking r none)
                | .ok none =>
                  match (if 15 ≤ d * 3 / 4 then
                      some (find_earliest_slot parsed atts (d * 3 / 4) p t 100)
                    else none) with
                  | some (.error _) => none
                  | some (.ok (some r)) =>
                    some (handle_successful_booking r (some "shorter_duration"))
                  | _ =>
                    match (if 2 < atts.length then
                        some (find_earliest_slot parsed
                          (atts.take (atts.length / 2 + 1)) d p t 100)
                      else none) with
                    | some (.error _) => none
                    | some (.ok (some r)) =>
                      some (handle_successful_booking r
                        (some "majority_attendees"))
                    | _ =>
                      match tryShifts parsed atts d p
                          [t + 1800, t - 1800, t + 3600, t - 3600] with
                      | .error _ => none
                      | .ok (some r) =>
                        some (handle_successful_booking r (some "time_shift"))
                      | .ok none =>
                        match find_earliest_slot parsed atts d p t 200 with
                        | .error _ => none
                        | .ok (some r) =>
                          some (handle_successful_booking r
                            (some "relaxed_preferences"))
                        | .ok none =>
                          some ⟨false, none, false, none, none,
                            some ("No available slot found after trying all fallback strategies"),
                            ["shorter_duration", "majority_attendees",
                              "time_shift", "relaxed_preferences"]⟩

/-- The request-shape conditions that the orchestrator rejects before any
search. -/
def requestShapeInvalid (user_calendars : List (String × List RawEvent))
    (req? : Option MeetingRequest) : Bool :=
  user_calendars.isEmpty ||
  match req? with
  | none => true
  | some req =>
    (match req.duration with
     | none => true
     | some dstr =>
       (dstr = "" : Bool) || (parseLeadingNat dstr).isNone ||
         decide ((parseLeadingNat dstr).getD 0 = 0)) ||
    (match req.startTime with
     | RawTime.val _ => false
     | _ => true) ||
    (match (req.priority).getD (RawPriority.intVal 1) with
     | RawPriority.nonInt => true
     | RawPriority.intVal n => decide (n < 1 ∨ 4 < n))

lemma handle_successful_booking_shape (r : (Nat × Nat) × List Event)
    (f : Option String) :
    (handle_successful_booking r f).success = true ∧
    (handle_successful_booking r f).slot.isSome = true ∧
    (handle_successful_booking r f).error = none := by
  obtain ⟨slot, toResched⟩ := r
  unfold handle_successful_booking
  dsimp only
  split <;> exact ⟨rfl, rfl, rfl⟩

/-- C4 (amended): an invalid request shape (missing calendars, missing or
unparsable or non-positive duration, missing or unparsable start time,
priority outside `[1,4]`) makes the orchestrator return `None` immediately -
not a structured outcome carrying a success flag - while every structured
outcome it does return reports either success with a slot or failure with an
error reason. -/
theorem C4_orchestrator_outcome_shape
    (cals : List (String × List RawEvent)) (req? : Option MeetingRequest)
    (r : BookingOutcome) :
    (requestShapeInvalid cals req? = true →
      schedule_meeting_from_request cals req? = none) ∧
    (schedule_meeting_from_request cals req? = some r →
      (r.success = true ∧ r.slot.isSome = true ∧ r.error = none) ∨
      (r.success = false ∧ r.slot = none ∧ r.error.isSome = true)) := by
  constructor
  · intro hinv
    unfold requestShapeInvalid at hinv
    unfold schedule_meeting_from_request
    by_cases hc : cals.isEmpty = true
    · rw [if_pos hc]
    · rw [if_neg hc]
      rw [Bool.or_eq_true] at hinv
      rcases hinv with hinv | hinv
      · exact absurd hinv hc
      · cases req? with
        | none => rfl
        | some req =>
          obtain ⟨subj, dur, st, prio⟩ := req
          dsimp only at hinv ⊢
          cases dur with
          | none => rfl
          | some dstr =>
            dsimp only at hinv ⊢
            by_cases hds : dstr = ""
            · rw [if_pos hds]
            · rw [if_neg hds]
              cases hpl : parseLeadingNat dstr with
              | none => rfl
              | some d =>
                rw [hpl] at hinv
                dsimp only
                by_cases hd0 : d = 0
                · rw [if_pos hd0]
                · rw [if_neg hd0]
                  have hdurok : ((dstr = "" : Bool) ||
                      (parseLeadingNat dstr).isNone ||
                      decide ((parseLeadingNat dstr).getD 0 = 0)) = false := by
                    rw [hpl]
                    simp [hds, hd0]
                  rw [hpl] at hdurok
                  simp only [Bool.or_eq_true] at hinv
                  rcases hinv with (hinv | hinv) | hinv
                  · rcases hinv with (hinv | hinv) | hinv
                    · simp [hds] at hinv
                    · simp at hinv
                    · simp [hd0] at hinv
                  · cases st with
                    | missing => rfl
                    | malformed => rfl
                    | val t => simp at hinv
                  · cases st with
                    | missing => rfl
                    | malformed => rfl
                    | val t =>
                      cases prio with
                      | none => simp at hinv
                      | some rp =>
                        cases rp with
                        | nonInt => rfl
                        | intVal n =>
                          simp only [Option.getD_some, decide_eq_true_eq] at hinv
                          simp only [Option.getD_some]
                          rw [if_pos hinv]
  · intro h
    unfold schedule_meeting_from_request at h
    dsimp only at h
    repeat' (split at h)
    all_goals
      first
      | (exact Option.noConfusion h)
      | (rw [Option.some_inj] at h
         rw [← h]
         first
         | exact Or.inl (handle_successful_booking_shape _ _)
         | exact Or.inr ⟨rfl, rfl, rfl⟩)

/-- Witness for C4: a priority-5 request is rejected with `None`, and the same
request with priority 2 produces a successful structured outcome. -/
theorem C4_orchestrator_outcome_shape_witness :
    schedule_meeting_from_request [("user1", [])]
      (some ⟨some "Sync", some "60 min", RawTime.val 36000,
        some (RawPriority.intVal 5)⟩) = none ∧
    (((⟨true, some (36000, 39600), false, none, none, none, []⟩ :
          BookingOutcome).success = true ∧
        (⟨true, some (36000, 39600), false, none, none, none, []⟩ :
          BookingOutcome).slot.isSome = true ∧
        (⟨true, some (36000, 39600), false, none, none, none, []⟩ :
          BookingOutcome).error = none) ∨
      ((⟨true, some (36000, 39600), false, none, none, none, []⟩ :
          BookingOutcome).success = false ∧
        (⟨true, some (36000, 39600), false, none, none, none, []⟩ :
          BookingOutcome).slot = none ∧
        (⟨true, some (36000, 39600), false, none, none, none, []⟩ :
          BookingOutcome).error.isSome = true)) := by
  constructor
  · exact (C4_orchestrator_outcome_shape [("user1", [])]
      (some ⟨some "Sync", some "60 min", RawTime.val 36000,
        some (RawPriority.intVal 5)⟩)
      ⟨true, some (36000, 39600), false, none, none, none, []⟩).1 (by decide)
  · exact (C4_orchestrator_outcome_shape [("user1", [])]
      (some ⟨some "Sync", some "60 min", RawTime.val 36000,
        some (RawPriority.intVal 2)⟩)
      ⟨true, some (36000, 39600), false, none, none, none, []⟩).2 (by rfl)

/-- Counterexample to C4 as stated: a request whose only defect is priority 5
makes the orchestrator return `None` - no structured outcome carrying a
success flag - although the identical request with priority 2 shows the
orchestrator can produce structured outcomes. -/
theorem C4_orchestrator_outcome_shape_counterexample :
    schedule_meeting_from_request [("user1", [])]
      (some ⟨some "Sync", some "60 min", RawTime.val 36000,
        some (RawPriority.intVal 5)⟩) = none ∧
    (schedule_meeting_from_request [("user1", [])]
      (some ⟨some "Sync", some "60 min", RawTime.val 36000,
        some (RawPriority.intVal 2)⟩)).isSome = true := by
  refine ⟨by rfl, by rfl⟩

end BotBooked
